import Mathlib

/-!
TeleRSS core delivery pipeline: a shallow embedding.

This file embeds the claim-relevant parts of the TeleRSS backend
(`packages/backend/src`) in Lean and proves or refutes the frozen claims
about its specification.

Embedding conventions:
* TypeScript strings are Lean `String`s; the character-level helpers work on
  `List Char` (JS `.length`/`.slice` count UTF-16 units, Lean counts
  characters; the difference only matters for astral-plane text, which no
  theorem here exercises).
* JavaScript falsiness of strings (`""` and `undefined`/`null` are both
  falsy in `a || b` chains and in `x ? y : z`) is modelled explicitly at
  each use site.
* Asynchronous calls to the network, to Telegram and to the database are
  modelled by explicit oracle functions (deterministic environments); a
  `none`/error result of an oracle models the corresponding call throwing.
* Database rows live in explicit lists; Prisma calls become pure functions
  on those lists, modelling the success path of each query (the source
  swallows individual update failures with `.catch(() => ...)`, which does
  not affect any claim proved here).
-/

namespace TeleRSS

/-! ## Component: message formatter (`packages/backend/src/bot/formatter.ts`)

`stripHtml`, `cleanDescription` (regex-based text cleanup applied to the
description before escaping) and `formatDate` (locale-dependent date
rendering) are modelled as parameters `cleanFn` and `dateStr` of
`formatArticleMessage`: every claim about the formatter concerns only what
happens downstream of them, namely HTML escaping and template assembly. -/

/-- One global single-character replacement, the semantics of the source's
`text.replace(/c/g, r)` calls: every occurrence of `c` becomes `r`. -/
def replaceChar (c : Char) (r : List Char) : List Char → List Char
  | [] => []
  | a :: as => if a = c then r ++ replaceChar c r as else a :: replaceChar c r as

/-- The character-level body of `escapeHtml`: sequentially replaces
ampersand, then the angle brackets, then the double quote by their HTML
entities, each pass over the full current text, exactly as the chained
global `replace` calls do. -/
def escapeHtmlList (l : List Char) : List Char :=
  replaceChar '"' "&quot;".toList
    (replaceChar '>' "&gt;".toList
      (replaceChar '<' "&lt;".toList
        (replaceChar '&' "&amp;".toList l)))

/-- `escapeHtml` (formatter.ts lines 20-26). -/
def escapeHtml (s : String) : String :=
  String.mk (escapeHtmlList s.toList)

/-- The per-character entity encoding that the four sequential `replace`
passes of `escapeHtml` amount to (proved below): each of the four special
characters becomes its entity, everything else is kept. -/
def escapeHtmlEntity (ch : Char) : List Char :=
  if ch = '&' then "&amp;".toList
  else if ch = '<' then "&lt;".toList
  else if ch = '>' then "&gt;".toList
  else if ch = '"' then "&quot;".toList
  else [ch]

/-- Trailing-whitespace trim, the semantics of JS `trimEnd()`. -/
def trimTrailing (cs : List Char) : List Char :=
  (cs.reverse.dropWhile Char.isWhitespace).reverse

/-- `truncate` (formatter.ts lines 28-31). -/
def truncate (text : String) (maxLength : Nat) : String :=
  if text.length ≤ maxLength then text
  else String.mk (trimTrailing (text.toList.take maxLength)) ++ "…"

/-- JS string truthiness for optional fields: `undefined` and `""` are both
falsy, so `x ? a : b` sees `some ""` exactly like `none`. -/
def truthyStr (o : Option String) : Option String :=
  match o with
  | some s => if s = "" then none else some s
  | none => none

/-- The input record of `formatArticleMessage` (formatter.ts lines 1-9).
`pubDate` is replaced by the already-rendered `dateStr` parameter. -/
structure ArticleData where
  feedName : String
  title : String
  link : String
  description : Option String
  imageUrl : Option String
  author : Option String
deriving DecidableEq

/-- The output record of `formatArticleMessage` (formatter.ts lines 11-18). -/
structure FormattedArticle where
  text : String
  caption : String
  imageUrl : Option String
  link : String
deriving DecidableEq

/-- The footer line of the message template (formatter.ts lines 63-65):
escaped author plus the italicized date, or the date alone when the author
field is falsy. -/
def footerOf (author : Option String) (dateStr : String) : String :=
  match truthyStr author with
  | some a => escapeHtml a ++ " · <i>" ++ dateStr ++ "</i>"
  | none => "<i>" ++ dateStr ++ "</i>"

/-- The optional description fragment (formatter.ts lines 68 and 72):
empty when the cleaned description is falsy, else a blank line plus the
escaped truncation of it. -/
def descPartOf (plainDesc : String) (cap : Nat) : String :=
  if plainDesc = "" then "" else "\n\n" ++ escapeHtml (truncate plainDesc cap)

/-- `formatArticleMessage` (formatter.ts lines 51-79).  `cleanFn` stands for
`cleanDescription ∘ stripHtml` and `dateStr` for `formatDate(article.pubDate)`
(see the section comment). -/
def formatArticleMessage (cleanFn : String → String) (dateStr : String)
    (article : ArticleData) : FormattedArticle :=
  let title := escapeHtml article.title
  let feedName := escapeHtml article.feedName
  let link := article.link
  let plainDesc := match truthyStr article.description with
    | some d => cleanFn d
    | none => ""
  let header := "<blockquote>📰 <b>" ++ feedName ++ "</b></blockquote>"
  let footer := footerOf article.author dateStr
  let descFull := descPartOf plainDesc 300
  let text := header ++ "\n<b><a href=\"" ++ link ++ "\">" ++ title ++ "</a></b>"
    ++ descFull ++ "\n\n" ++ footer
  let descCaption := descPartOf plainDesc 180
  let captionRaw := header ++ "\n<b><a href=\"" ++ link ++ "\">" ++ title ++ "</a></b>"
    ++ descCaption ++ "\n\n" ++ footer
  let caption := if captionRaw.length ≤ 1024 then captionRaw
    else String.mk (trimTrailing (captionRaw.toList.take 1020)) ++ "…"
  { text := text, caption := caption, imageUrl := article.imageUrl, link := link }

/-- Character occurrence count in a string (used to state that feed content
cannot add markup characters to the assembled HTML). -/
def countIn (c : Char) (s : String) : Nat := s.toList.count c

/-! ## Component: Telegram delivery retry (`packages/backend/src/rss/fetcher.ts`)

The file `fetcher.ts` contains two concatenated revisions; the current one
(lines 1-349, the one matching the per-chat pacing, the 5-attempt retry and
the commit-after-first-success ledger order described elsewhere in the
backend) is the one embedded here. -/

/-- The duck-typed shape inspected by `isRetryableTelegramError` (fetcher.ts
lines 27-64) and `getTelegramRetryAfterMs` (lines 66-79).  Absent fields are
`none`; a field of the wrong runtime type in JS behaves like an absent one
and is likewise modelled as `none`. -/
structure TgErr where
  code : Option String
  errno : Option String
  causeCode : Option String
  responseErrorCode : Option Int
  status : Option Int
  statusCode : Option Int
  /-- `response.parameters.retry_after`, in seconds. -/
  retryAfter : Option Int
deriving DecidableEq

/-- A `TgErr` with every field absent, for building concrete errors. -/
def TgErr.none : TgErr := ⟨Option.none, Option.none, Option.none, Option.none,
  Option.none, Option.none, Option.none⟩

/-- `RETRYABLE_NETWORK_CODES` (fetcher.ts lines 8-16). -/
def RETRYABLE_NETWORK_CODES : List String :=
  ["ECONNRESET", "ETIMEDOUT", "EAI_AGAIN", "ENOTFOUND", "ECONNABORTED",
   "ECONNREFUSED", "EPIPE"]

/-- `isRetryableTelegramError` (fetcher.ts lines 27-64): a transient network
code in `code`/`errno`/`cause.code`, or an HTTP status of 429 or at least
500 in `response.error_code`/`status`/`statusCode`. -/
def isRetryableTelegramError (e : TgErr) : Bool :=
  ([e.code, e.errno, e.causeCode].any fun c =>
    match c with
    | some s => RETRYABLE_NETWORK_CODES.contains s
    | none => false) ||
  ([e.responseErrorCode, e.status, e.statusCode].any fun c =>
    match c with
    | some n => n == 429 || n ≥ 500
    | none => false)

/-- `getTelegramRetryAfterMs` (fetcher.ts lines 66-79): a positive
`retry_after` (seconds) becomes milliseconds plus the 500ms
`RETRY_AFTER_BUFFER_MS`; otherwise `none`. -/
def getTelegramRetryAfterMs (e : TgErr) : Option Int :=
  match e.retryAfter with
  | some r => if r ≤ 0 then none else some (r * 1000 + 500)
  | none => none

/-- The loop body of `runWithTelegramRetry` (fetcher.ts lines 111-138).
`oracle n` is the outcome of the Telegram call on attempt number `n`
(the source numbers attempts from 1).  `fuel` counts the retries still
allowed: the source throws when `attempt >= maxAttempts`, i.e. when
`fuel = 0`.  The returned list records the waits (in ms) slept between
attempts, each being the server-provided delay if present and the current
backoff value otherwise; the backoff doubles, capped at 10000. -/
def telegramRetryGo {α : Type} (oracle : Nat → Except TgErr α) :
    Nat → Nat → Int → Except TgErr α × List Int
  | 0, attempt, _ =>
    match oracle attempt with
    | .ok a => (.ok a, [])
    | .error e => (.error e, [])
  | f + 1, attempt, waitMs =>
    match oracle attempt with
    | .ok a => (.ok a, [])
    | .error e =>
      if isRetryableTelegramError e then
        let w := (getTelegramRetryAfterMs e).getD waitMs
        let p := telegramRetryGo oracle f (attempt + 1) (min (waitMs * 2) 10000)
        (p.1, w :: p.2)
      else (.error e, [])

/-- `runWithTelegramRetry` (fetcher.ts lines 111-138): `maxAttempts = 5`
(the first attempt plus up to 4 retries), initial backoff 600ms. -/
def runWithTelegramRetry {α : Type} (oracle : Nat → Except TgErr α) :
    Except TgErr α × List Int :=
  telegramRetryGo oracle 4 1 600

/-! ## Component: safe feed fetcher (`src/unnamed/part_008`, the revision of
`rss/parser.ts` with SSRF and retry logic)

URLs are modelled as a record carrying the hostname (the only part the
safety validation inspects); `new URL(location, url)` relative-reference
resolution is elided by letting the HTTP oracle return the absolute next
URL of a redirect.  `ipaddr.js` parsing/classification is modelled for
dotted-quad IPv4 literals (the library also accepts IPv6 and exotic IPv4
notations; no theorem below depends on those inputs). -/

/-- The part of a URL the fetcher's safety validation inspects. -/
structure Url where
  host : String
deriving DecidableEq

/-- `ipaddr.js` address ranges relevant to IPv4 classification. -/
inductive IpRange
  | unspecified | broadcast | multicast | linkLocal | loopback
  | carrierGradeNat | privateRange | reserved | unicast
deriving DecidableEq

/-- Decimal digits to a number; `none` on a non-digit. -/
def decOctet (s : List Char) : Option Nat :=
  match s with
  | [] => none
  | _ =>
    if s.length > 3 then none
    else if s.all Char.isDigit then
      some (s.foldl (fun acc c => acc * 10 + (c.toNat - 48)) 0)
    else none

/-- Splitting a character list on the dot separator (the semantics of
`"a.b.c".split(".")`): `acc` holds the current segment reversed. -/
def splitOnDotAux : List Char → List Char → List (List Char)
  | [], acc => [acc.reverse]
  | c :: rest, acc =>
    if c = '.' then acc.reverse :: splitOnDotAux rest []
    else splitOnDotAux rest (c :: acc)

/-- Dotted-quad IPv4 parsing (the `ipaddr.parse` / `ipaddr.isValid` behavior
on standard IPv4 literals); a non-IP hostname gives `none`. -/
def parseIPv4 (host : String) : Option (Nat × Nat × Nat × Nat) :=
  match (splitOnDotAux host.toList []).map decOctet with
  | [some a, some b, some c, some d] =>
    if a ≤ 255 ∧ b ≤ 255 ∧ c ≤ 255 ∧ d ≤ 255 then some (a, b, c, d) else none
  | _ => none

/-- The IPv4 special-range table of `ipaddr.js` (an address in none of the
special ranges is `unicast`, i.e. public). -/
def ipv4Range (ip : Nat × Nat × Nat × Nat) : IpRange :=
  let (a, b, c, _) := ip
  if a = 0 then .unspecified
  else if ip = (255, 255, 255, 255) then .broadcast
  else if 224 ≤ a ∧ a ≤ 239 then .multicast
  else if a = 169 ∧ b = 254 then .linkLocal
  else if a = 127 then .loopback
  else if a = 100 ∧ 64 ≤ b ∧ b ≤ 127 then .carrierGradeNat
  else if a = 10 ∨ (a = 172 ∧ 16 ≤ b ∧ b ≤ 31) ∨ (a = 192 ∧ b = 168) then .privateRange
  else if (a = 192 ∧ b = 0 ∧ c = 0) ∨ (a = 192 ∧ b = 0 ∧ c = 2) ∨
          (a = 192 ∧ b = 88 ∧ c = 99) ∨ (a = 198 ∧ (b = 18 ∨ b = 19)) ∨
          (a = 198 ∧ b = 51 ∧ c = 100) ∨ (a = 203 ∧ b = 0 ∧ c = 113) ∨ 240 ≤ a
  then .reserved
  else .unicast

/-- `isSafeIP` (part_008 lines 53-61): parse the address and allow only the
`unicast` range; a parse failure is unsafe. -/
def isSafeIP (host : String) : Bool :=
  match parseIPv4 host with
  | some ip => ipv4Range ip == .unicast
  | none => false

/-- `validateUrlSafety` (part_008 lines 66-80): a hostname that is *not* a
literal IP address skips validation entirely (the source comment reads
"they'll be resolved later", but no post-resolution check exists); a literal
IP hostname must be a safe (public unicast) address. -/
def validateUrlSafety (u : Url) : Bool :=
  match parseIPv4 u.host with
  | none => true
  | some _ => isSafeIP u.host

/-- `ALLOWED_CONTENT_TYPES` (part_008 lines 41-48). -/
def ALLOWED_CONTENT_TYPES : List String :=
  ["application/rss+xml", "application/atom+xml", "application/xml",
   "text/xml", "text/plain", "application/xml"]

/-- Substring test, the semantics of JS `String.prototype.includes`. -/
def containsSub (hay pat : String) : Bool :=
  hay.toList.tails.any fun t => pat.toList.isPrefixOf t

/-- One HTTP response as seen by the fetcher callback.  `location` is the
absolute URL of the `Location` header when present; `retryAfterSec` is the
parsed integer `Retry-After` header (`none` models an absent header or one
that fails `parseInt`). -/
structure HttpResp where
  status : Nat
  location : Option Url
  contentType : Option String
  retryAfterSec : Option Nat
  bodyText : String
deriving DecidableEq

/-- The error taxonomy of `fetchUrl`/`fetchUrlWithRetry` in part_008:
`httpStatus` is the `FetchHttpError` class (part_008 lines 82-90) carrying
the status and the optional `Retry-After` in milliseconds; the other
constructors are the plain `Error` rejections of the promise. -/
inductive FetchErr
  | unsafeTarget
  | tooManyRedirects
  | invalidContentType
  | networkErr
  | httpStatus (status : Nat) (retryAfterMs : Option Nat)
deriving DecidableEq

/-- The status/content-type/redirect dispatch of the `fetchUrl` response
callback after a response arrived (part_008 lines 105-144), minus the
redirect case, which `fetchUrl` itself handles. -/
def fetchRespTail (u : Url) (res : HttpResp) : Except FetchErr String × List Url :=
  if 400 ≤ res.status then
    (.error (.httpStatus res.status (res.retryAfterSec.map (· * 1000))), [u])
  else (.ok res.bodyText, [u])

/-- How the `fetchUrl` response callback proceeds once a response arrived:
either it settles the promise (`done`) or it must follow a redirect
(`follow`). -/
inductive FetchDecision where
  | done (r : Except FetchErr String × List Url)
  | follow (next : Url)

/-- The response dispatch of `fetchUrl` (part_008 lines 105-144), in source
order: the content-type check (rejecting a disallowed type on status 200),
then the redirect test (a 3xx status with a `Location` header), then the
status->=-400 rejection, else the body. -/
def fetchDecide (u : Url) (res : HttpResp) : FetchDecision :=
  if (ALLOWED_CONTENT_TYPES.any fun t =>
      containsSub (String.mk (((res.contentType.getD "").toList).map Char.toLower)) t)
        = false ∧ res.status = 200 then
    .done (.error .invalidContentType, [u])
  else
    match res.location with
    | some next =>
      if 300 ≤ res.status ∧ res.status < 400 then .follow next
      else .done (fetchRespTail u res)
    | none => .done (fetchRespTail u res)

/-- `fetchUrl` (part_008 lines 92-152).  `oracle` maps each URL to the
response of a GET against it (`none` models a network error / timeout).
The second component of the result lists, in order, the URLs actually
connected to — used to state that validation happens *before* connecting.
Validation runs on entry for the initial URL and again for every redirect
hop (each hop re-enters `fetchUrl`); a redirect with `redirectsLeft = 0`
rejects with the too-many-redirects error. -/
def fetchUrl (oracle : Url → Option HttpResp) :
    Nat → Url → Except FetchErr String × List Url
  | 0, u =>
    if validateUrlSafety u = false then (.error .unsafeTarget, [])
    else
      match oracle u with
      | none => (.error .networkErr, [u])
      | some res =>
        match fetchDecide u res with
        | .done r => r
        | .follow _ => (.error .tooManyRedirects, [u])
  | r + 1, u =>
    if validateUrlSafety u = false then (.error .unsafeTarget, [])
    else
      match oracle u with
      | none => (.error .networkErr, [u])
      | some res =>
        match fetchDecide u res with
        | .done p => p
        | .follow next =>
          let p := fetchUrl oracle r next
          (p.1, u :: p.2)

/-- Retryability at the feed-fetch layer (part_008 lines 163-165): only a
`FetchHttpError` with status 429 or 503. -/
def retryableFetch (e : FetchErr) : Bool :=
  match e with
  | .httpStatus s _ => s == 429 || s == 503
  | _ => false

/-- The `retryAfterMs` field of a `FetchHttpError` (absent on every other
error shape). -/
def fetchRetryAfterMs (e : FetchErr) : Option Nat :=
  match e with
  | .httpStatus _ r => r
  | _ => none

/-- The loop of `fetchUrlWithRetry` (part_008 lines 154-181).  `oracle n` is
the outcome of the whole `fetchUrl` call on attempt `n` (0-based here; the
source counts 1-based, so the backoff exponent `attempt` below equals the
source's `attempt - 1`).  `fuel` is the number of retries still allowed
(`MAX_ATTEMPTS = 3` total).  The wait before each retry is the
server-provided `retryAfterMs` when present, else
`min (5000 * 2 ^ (attempt - 1)) 60000`. -/
def fetchRetryGo (oracle : Nat → Except FetchErr String) :
    Nat → Nat → Except FetchErr String × List Nat
  | 0, attempt =>
    match oracle attempt with
    | .ok s => (.ok s, [])
    | .error e => (.error e, [])
  | f + 1, attempt =>
    match oracle attempt with
    | .ok s => (.ok s, [])
    | .error e =>
      if retryableFetch e then
        let backoff := min (5000 * 2 ^ attempt) 60000
        let delay := (fetchRetryAfterMs e).getD backoff
        let p := fetchRetryGo oracle f (attempt + 1)
        (p.1, delay :: p.2)
      else (.error e, [])

/-- `fetchUrlWithRetry` (part_008 lines 154-181): 3 total attempts. -/
def fetchUrlWithRetry (oracle : Nat → Except FetchErr String) :
    Except FetchErr String × List Nat :=
  fetchRetryGo oracle 2 0

/-- Claim C3 as stated: for every URL whose *resolved* host is a private,
loopback or link-local address — `resolve` being any name-resolution the
network performs — the fetch fails before any connection is made.  (Refuted
below: the source validates only hostnames that are already IP literals and
never re-checks after name resolution.) -/
def c3ClaimAsStated : Prop :=
  ∀ (resolve : String → Nat × Nat × Nat × Nat) (oracle : Url → Option HttpResp)
    (fuel : Nat) (u : Url),
    (ipv4Range (resolve u.host) = .privateRange ∨
      ipv4Range (resolve u.host) = .loopback ∨
      ipv4Range (resolve u.host) = .linkLocal) →
    fetchUrl oracle fuel u = (.error .unsafeTarget, [])

/-! ## Component: feed parser item normalization
(`packages/backend/src/rss/parser.ts` lines 114-138)

The XML parsing done by the `rss-parser` library is the boundary: a raw
item is whatever record the library produced for one `<item>`/`<entry>`.
Absent string fields and empty ones behave identically in the `a || b`
chains of the source, so both are encoded as `""`.  Date parsing
(`new Date(...)`) and image extraction (`extractImageUrl`, a selection among
enclosure/media/inline-image sources) are modelled as inputs `dateParse`
and `.extractedImage` — no claim depends on their internals. -/

/-- JS `a || b` on strings (`""` is falsy). -/
def jsOr (a b : String) : String := if a = "" then b else a

/-- One raw item as produced by `rss-parser` (only the fields the
normalization at parser.ts lines 118-131 reads). -/
structure RawItem where
  guid : String
  title : String
  link : String
  contentSnippet : String
  content : String
  pubDateStr : String
  creator : String
  author : String
  /-- The value of `extractImageUrl(raw)` for this item. -/
  extractedImage : Option String
deriving DecidableEq

/-- One normalized article (`ParsedItem`, parser.ts lines 11-19).
`pubDate` is the epoch-milliseconds timestamp of the parsed date. -/
structure ParsedItem where
  guid : String
  title : String
  link : String
  description : Option String
  pubDate : Option Int
  imageUrl : Option String
  author : Option String
deriving DecidableEq

/-- The per-item normalization (parser.ts lines 118-131): the id is
`item.guid || item.link || ''`; title falls back to `'Untitled'`;
description is `contentSnippet || content || undefined`; the date is parsed
only when `pubDate` is truthy; author is `creator || author` or absent.
`dateParse` is total here, i.e. this is the fragment in which every truthy
date string parses to a valid date; the Invalid-Date/`NaN` outcome of
`new Date(s)` — irrelevant to the claims that never read `pubDate` (the
delivery loop reads only `guid`), but decisive for the delivery *ordering*
— is kept in `normalizeItemJs` and the `JsNum` model below. -/
def normalizeItem (dateParse : String → Int) (it : RawItem) : ParsedItem :=
  { guid := jsOr it.guid it.link
    title := jsOr it.title "Untitled"
    link := it.link
    description := truthyStr (some (jsOr it.contentSnippet it.content))
    pubDate := if it.pubDateStr = "" then none else some (dateParse it.pubDateStr)
    imageUrl := it.extractedImage
    author := truthyStr (some (jsOr it.creator it.author)) }

/-- The item list of `parseFeed` (parser.ts lines 118-131): a total map over
the raw items — no item is dropped and no single item can fail the feed. -/
def parseFeedItems (dateParse : String → Int) (raws : List RawItem) : List ParsedItem :=
  raws.map (normalizeItem dateParse)

/-! ## Component: orchestrator `checkFeed`
(`packages/backend/src/rss/fetcher.ts` lines 209-349, current revision)

The database is modelled per feed: the ledger is the list of article guids
already recorded as `DeliveredItem` rows for this feed (uniqueness of
`(feedId, articleGuid)` makes this the whole state that matters to one
cycle).  The feed row and its *active* subscriptions (the Prisma query
filters `active: true`) are inputs.  The topic router and Telegram sends
are oracles in a `DeliverEnv` (the router itself is modelled separately
below for its own claims). -/

/-- One subscription row as loaded by `checkFeed`. -/
structure Subscription where
  id : String
  chatId : String
  topicName : Option String
  topicNameKey : Option String
  topicThreadId : Option Int
deriving DecidableEq

/-- One feed row with its active subscriptions. -/
structure Feed where
  name : String
  url : String
  active : Bool
  subscriptions : List Subscription
deriving DecidableEq

/-- Outcome of one `sendArticle` call as classified by the catch handler in
`checkFeed`: success, a "message thread not found"-class error
(`isMissingTopicError`, fetcher.ts lines 155-162), or any other error. -/
inductive SendOutcome
  | ok
  | errMissingTopic
  | errOther
deriving DecidableEq

/-- The oracles for one cycle: the result of a non-forced
`ensureTopicForSubscription`, the result of a forced one (`none` models the
recreate call itself throwing), and the outcome of `sendArticle` per
(chat, article guid, thread target). -/
structure DeliverEnv where
  ensureTopic : Subscription → Option Int
  ensureTopicForce : Subscription → Option (Option Int)
  send : String → String → Option Int → SendOutcome

/-- Delivery of one article to one subscription: the body of the inner
`for (const sub of feed.subscriptions)` loop (fetcher.ts lines 271-315),
returning whether this subscription received the article (the contribution
to `sentToAnySubscription`).  A missing-topic error with a numeric thread
triggers one forced recreation and one re-send; every other failure path
is logged and counts as not-sent. -/
def deliverToSub (env : DeliverEnv) (sub : Subscription) (guid : String) : Bool :=
  let threadId := match sub.topicThreadId with
    | some t => some t
    | none => env.ensureTopic sub
  match env.send sub.chatId guid threadId with
  | .ok => true
  | .errMissingTopic =>
    match threadId with
    | some _ =>
      match env.ensureTopicForce sub with
      | some (some t2) => env.send sub.chatId guid (some t2) == .ok
      | _ => false
    | none => false
  | .errOther => false

/-- `a.pubDate?.getTime() ?? 0`: the sort key of the delivery ordering
(fetcher.ts lines 237-241); an undated item sorts as the epoch.  This is
the key on the valid-date fragment of `ParsedItem`; in the source a
truthy-but-unparseable date string gives `getTime() = NaN`, which `?? 0`
does *not* replace — that case is kept by `jsKey` on `JsItem` below. -/
def pubKey (it : ParsedItem) : Int := it.pubDate.getD 0

/-- "Is published no later than": the publish-time order with undated items
as earliest — between dated items, their timestamps; an undated item
precedes everything; a dated item precedes an undated one only from the
epoch or earlier. -/
def timeLE (a b : ParsedItem) : Prop :=
  match a.pubDate, b.pubDate with
  | some ta, some tb => ta ≤ tb
  | none, _ => True
  | some ta, none => ta ≤ 0

/-- Insertion into a key-sorted list, placing the new element after all
elements of smaller-or-equal key (the stable ascending order produced by
`Array.prototype.sort` with the comparator `aTime - bTime`). -/
def insertByKey (x : ParsedItem) : List ParsedItem → List ParsedItem
  | [] => [x]
  | y :: ys => if pubKey y ≤ pubKey x then y :: insertByKey x ys else x :: y :: ys

/-- `[...parsedFeed.items].sort((a, b) => aTime - bTime)` (fetcher.ts lines
237-241): the stable ascending sort by `pubKey` that `Array.prototype.sort`
produces when the comparator is *consistent* on the elements, i.e. when
every key is an actual number.  When some item carries an Invalid Date the
comparator returns `NaN` and ECMA-262 makes the sort order
implementation-defined; that general contract is `jsSortSpec` below, and
the claims about delivery ordering are settled against it. -/
def sortByPubDate (l : List ParsedItem) : List ParsedItem :=
  l.foldl (fun acc x => insertByKey x acc) []

/-- The per-item loop of `checkFeed` (fetcher.ts lines 243-339) over the
already-sorted items, threading the ledger: an item with a falsy guid is
skipped; an already-recorded guid is skipped; otherwise delivery to every
active subscription is attempted and the guid is recorded in the ledger
only when at least one subscription received it
(`if (!sentToAnySubscription) ... continue` before the
`prisma.deliveredItem.create`).  Returns the final ledger and, in order,
the items for which delivery was attempted.  (The source's catch of a
unique-constraint race on create cannot fire in this single-writer model;
`subscriptions.any` has the value the sequential flag accumulation
produces, since each subscription's outcome depends only on the oracles.) -/
def checkItems (feed : Feed) (env : DeliverEnv) :
    List ParsedItem → List String → List String × List ParsedItem
  | [], ledger => (ledger, [])
  | item :: rest, ledger =>
    if item.guid = "" then checkItems feed env rest ledger
    else if item.guid ∈ ledger then checkItems feed env rest ledger
    else
      let sent := feed.subscriptions.any fun sub => deliverToSub env sub item.guid
      let ledger2 := if sent then ledger ++ [item.guid] else ledger
      let p := checkItems feed env rest ledger2
      (p.1, item :: p.2)

/-- The observable outcome of one `checkFeed` invocation. -/
structure CheckOutcome where
  ledger : List String
  attempts : List ParsedItem
  /-- whether `parseFeed(feed.url)` (a network fetch) was invoked -/
  fetched : Bool
  /-- whether `lastCheckedAt` was written -/
  lastCheckedUpdated : Bool
deriving DecidableEq

/-- `checkFeed` (fetcher.ts lines 209-349).  `feedRow` is the result of the
feed query (`none` = no such feed); `fetchResult` is the outcome of
`parseFeed(feed.url)` (`none` = the fetch/parse threw).  A missing,
inactive or subscription-less feed returns before fetching and before
touching `lastCheckedAt`; a fetch/parse failure records the check time and
exits; otherwise items are processed through the sort stage and the check
time is recorded once at the end.  (The sort stage here is
`sortByPubDate`, the consistent-comparator case; `CheckFeedJsRun` below is
the same cycle with the sort stage held to the full ECMA contract.) -/
def checkFeed (feedRow : Option Feed) (fetchResult : Option (List ParsedItem))
    (env : DeliverEnv) (ledger : List String) : CheckOutcome :=
  match feedRow with
  | none => ⟨ledger, [], false, false⟩
  | some feed =>
    if feed.active = false then ⟨ledger, [], false, false⟩
    else if feed.subscriptions = [] then ⟨ledger, [], false, false⟩
    else
      match fetchResult with
      | none => ⟨ledger, [], true, true⟩
      | some items =>
        let itemsToSend := sortByPubDate items
        let p := checkItems feed env itemsToSend ledger
        ⟨p.1, p.2, true, true⟩

/-! ### The sort stage with the NaN case kept

`sortByPubDate` above is the behaviour of `[...items].sort(cmp)` in the
case the ECMAScript standard actually pins down: when the comparator is
*consistent* on the elements.  The comparator here is
`(a.pubDate?.getTime() ?? 0) - (b.pubDate?.getTime() ?? 0)`, and
`new Date(s)` for a truthy but unparseable string `s` is an Invalid Date
whose `getTime()` is `NaN`; `?? 0` replaces only an absent date
(`undefined`), not `NaN`, and `NaN - x` is `NaN`, so with such an item
present the comparator returns `NaN`, is not consistent, and
`Array.prototype.sort` gives no ordering guarantee (the sort order is
implementation-defined; V8 in particular treats a `NaN` comparison result
as equality and can leave dated items out of order).  The model below
keeps that case: dates are `JsNum` values that may be `nan`, and the sort
stage is the ECMA-262 contract `jsSortSpec` rather than a fixed
implementation. -/

/-- A JavaScript number that may be `NaN`: `new Date(s).getTime()` is
`NaN` exactly when `s` made an Invalid Date. -/
inductive JsNum
  | nan
  | num (v : Int)
deriving DecidableEq

/-- JS subtraction as used by the delivery comparator `aTime - bTime`:
`NaN` whenever either operand is `NaN`. -/
def JsNum.sub : JsNum → JsNum → JsNum
  | .num a, .num b => .num (a - b)
  | _, _ => .nan

/-- Numeric comparison on non-`NaN` values, the key order of the stable
ascending sort in the consistent-comparator case (the `nan` rows are
irrelevant there: `sortJsByKey` is only ever equated with the source's
sort under a no-`NaN` hypothesis). -/
def JsNum.le : JsNum → JsNum → Bool
  | .num a, .num b => a ≤ b
  | _, _ => true

/-- A parsed article with the Invalid-Date case kept: `pubDate` is absent
(`none`), a valid timestamp, or `NaN` for an Invalid Date. -/
structure JsItem where
  guid : String
  title : String
  link : String
  description : Option String
  pubDate : Option JsNum
  imageUrl : Option String
  author : Option String
deriving DecidableEq

/-- The per-item normalization (parser.ts lines 118-131) with the
Invalid-Date case kept: for a truthy `pubDate` string, `new Date(s)`
yields either a timestamp or an Invalid Date whose `getTime()` is `NaN`.
The host date parser is the oracle, `none` standing for an unparseable
string. -/
def normalizeItemJs (dateParse : String → Option Int) (it : RawItem) : JsItem :=
  { guid := jsOr it.guid it.link
    title := jsOr it.title "Untitled"
    link := it.link
    description := truthyStr (some (jsOr it.contentSnippet it.content))
    pubDate := if it.pubDateStr = "" then none
      else some (match dateParse it.pubDateStr with
        | some t => JsNum.num t
        | none => JsNum.nan)
    imageUrl := it.extractedImage
    author := truthyStr (some (jsOr it.creator it.author)) }

/-- The item list of `parseFeed` over the NaN-faithful items. -/
def parseFeedItemsJs (dateParse : String → Option Int) (raws : List RawItem) :
    List JsItem :=
  raws.map (normalizeItemJs dateParse)

/-- `a.pubDate?.getTime() ?? 0` with `NaN` kept: `?? 0` replaces only an
absent date, so an Invalid Date keeps the key `NaN`. -/
def jsKey : Option JsNum → JsNum
  | none => JsNum.num 0
  | some k => k

/-- The delivery comparator (fetcher.ts lines 237-241) applied to two
items: `(a.pubDate?.getTime() ?? 0) - (b.pubDate?.getTime() ?? 0)`. -/
def deliveryCmp (a b : JsItem) : JsNum :=
  (jsKey a.pubDate).sub (jsKey b.pubDate)

/-- Stable insertion by ascending key, over the NaN-faithful items. -/
def insertByJsKey (x : JsItem) : List JsItem → List JsItem
  | [] => [x]
  | y :: ys =>
    if (jsKey y.pubDate).le (jsKey x.pubDate) then y :: insertByJsKey x ys
    else x :: y :: ys

/-- The stable ascending sort by key, over the NaN-faithful items. -/
def sortJsByKey (l : List JsItem) : List JsItem :=
  l.foldl (fun acc x => insertByJsKey x acc) []

/-- The ECMA-262 contract of `[...parsedFeed.items].sort(cmp)` (fetcher.ts
lines 237-241, Array.prototype.sort): the result is a permutation of the
input, and when the comparator is consistent on the elements — no
comparison returns `NaN`, i.e. no item carries an Invalid Date — it is the
stable ascending sort; otherwise the sort order is implementation-defined
and any permutation is an admissible outcome. -/
def jsSortSpec (l out : List JsItem) : Prop :=
  List.Perm out l ∧
    ((∀ a ∈ l, ∀ b ∈ l, deliveryCmp a b ≠ JsNum.nan) → out = sortJsByKey l)

/-- "Is published no later than" on NaN-faithful items: between items with
valid dates, their timestamps; an undated item precedes everything; a
valid-dated item precedes an undated one only from the epoch or earlier;
a pair involving an Invalid Date is unconstrained (the claim's order
concerns publish times, which an Invalid Date does not have). -/
def timeLEJs (a b : JsItem) : Prop :=
  match a.pubDate, b.pubDate with
  | some (JsNum.num ta), some (JsNum.num tb) => ta ≤ tb
  | some (JsNum.num ta), none => ta ≤ 0
  | _, _ => True

/-- The per-item loop of `checkFeed` (fetcher.ts lines 243-339) over the
NaN-faithful items — identical to `checkItems`, which never reads
`pubDate`. -/
def checkItemsJs (feed : Feed) (env : DeliverEnv) :
    List JsItem → List String → List String × List JsItem
  | [], ledger => (ledger, [])
  | item :: rest, ledger =>
    if item.guid = "" then checkItemsJs feed env rest ledger
    else if item.guid ∈ ledger then checkItemsJs feed env rest ledger
    else
      let sent := feed.subscriptions.any fun sub => deliverToSub env sub item.guid
      let ledger2 := if sent then ledger ++ [item.guid] else ledger
      let p := checkItemsJs feed env rest ledger2
      (p.1, item :: p.2)

/-- The observable outcome of one `checkFeed` invocation, over the
NaN-faithful items. -/
structure CheckOutcomeJs where
  ledger : List String
  attempts : List JsItem
  fetched : Bool
  lastCheckedUpdated : Bool
deriving DecidableEq

/-- One `checkFeed` invocation (fetcher.ts lines 209-349) with the sort
stage held to its ECMA-262 contract instead of a fixed implementation:
`out` ranges over the admissible outcomes of the cycle.  Identical to
`checkFeed` except that `itemsToSend` is any list `jsSortSpec` admits. -/
def CheckFeedJsRun (feedRow : Option Feed) (fetchResult : Option (List JsItem))
    (env : DeliverEnv) (ledger : List String) (out : CheckOutcomeJs) : Prop :=
  match feedRow with
  | none => out = ⟨ledger, [], false, false⟩
  | some feed =>
    if feed.active = false then out = ⟨ledger, [], false, false⟩
    else if feed.subscriptions = [] then out = ⟨ledger, [], false, false⟩
    else
      match fetchResult with
      | none => out = ⟨ledger, [], true, true⟩
      | some items =>
        ∃ itemsToSend, jsSortSpec items itemsToSend ∧
          out = ⟨(checkItemsJs feed env itemsToSend ledger).1,
            (checkItemsJs feed env itemsToSend ledger).2, true, true⟩

/-- Article published at T1 (valid date). -/
def jsItemT1 : JsItem := ⟨"a", "t1", "la", none, some (JsNum.num 1), none, none⟩

/-- Article published at T2 (valid date). -/
def jsItemT2 : JsItem := ⟨"b", "t2", "lb", none, some (JsNum.num 2), none, none⟩

/-- Article published at T3 (valid date). -/
def jsItemT3 : JsItem := ⟨"c", "t3", "lc", none, some (JsNum.num 3), none, none⟩

/-- Article whose date string was truthy but unparseable: an Invalid Date,
`getTime()` is `NaN`. -/
def jsItemInvalid : JsItem := ⟨"b", "t2", "lb", none, some JsNum.nan, none, none⟩

/-! ## Component: topic router (`packages/backend/src/bot/topics.ts`)

The subscription table is a list of rows (Prisma ids are unique; theorems
that need this carry a `Nodup` hypothesis).  `isForum` is the (cached)
capability probe `isForumEnabledSupergroup`; `createResult` is the
`message_thread_id` of a successful `createForumTopic` call, `none`
modelling that call throwing.  The `.catch(() => {})` wrappers on the
single-row updates swallow failures; the embedding models the success
path of every database call. -/

/-- `normalizeWhitespace` (topics.ts lines 9-11): each maximal whitespace
run becomes one space (`replace(/\s+/g, ' ')`), then the ends are trimmed.
The flag of `squashAux` records whether the previous character was
whitespace. -/
def squashAux : Bool → List Char → List Char
  | _, [] => []
  | prevWS, c :: rest =>
    if c.isWhitespace then
      if prevWS then squashAux true rest else ' ' :: squashAux true rest
    else c :: squashAux false rest

/-- Leading/trailing-whitespace trim, the semantics of JS `trim()`. -/
def trimChars (cs : List Char) : List Char :=
  ((cs.dropWhile Char.isWhitespace).reverse.dropWhile Char.isWhitespace).reverse

/-- `normalizeWhitespace` (topics.ts lines 9-11). -/
def normalizeWhitespace (s : String) : String :=
  String.mk (trimChars (squashAux false s.toList))

/-- `buildTopicNameFromFeed` (topics.ts lines 13-17): whitespace-normalized
feed name, falling back to `"Feed Updates"` when empty, capped at
`MAX_TOPIC_NAME_LENGTH = 128`. -/
def buildTopicNameFromFeed (feedName : String) : String :=
  let normalized := normalizeWhitespace feedName
  let fallback := if normalized.length > 0 then normalized else "Feed Updates"
  fallback.take 128

/-- `normalizeTopicName` (topics.ts lines 19-21): whitespace-normalized and
case-folded (ASCII lowercasing; `toLowerCase` and `Char.toLower` agree on
every string any theorem below evaluates). -/
def normalizeTopicName (value : String) : String :=
  String.mk ((normalizeWhitespace value).toList.map Char.toLower)

/-- `EnsureTopicInput` (topics.ts lines 55-63). -/
structure EnsureTopicInput where
  subscriptionId : String
  chatId : String
  feedName : String
  topicName : Option String
  topicNameKey : Option String
  topicThreadId : Option Int
  forceRecreate : Bool
deriving DecidableEq

/-- The subscription table. -/
abbrev TopicDb := List Subscription

/-- The first row satisfying the Prisma `findFirst` filter
`{ chatId, topicNameKey, topicThreadId: { not: null } }`. -/
def findAssigned (db : TopicDb) (chatId key : String) : Option Subscription :=
  db.find? fun s =>
    s.chatId == chatId && s.topicNameKey == some key && s.topicThreadId.isSome

/-- `prisma.subscription.update` setting `topicName`/`topicNameKey` on one
row (topics.ts lines 70-73). -/
def dbSetNameKey (db : TopicDb) (id name key : String) : TopicDb :=
  db.map fun s =>
    if s.id == id then { s with topicName := some name, topicNameKey := some key } else s

/-- `prisma.subscription.update` setting all three topic fields on one row
(topics.ts lines 98-105 and 130-137). -/
def dbSetAll (db : TopicDb) (id name key : String) (t : Int) : TopicDb :=
  db.map fun s =>
    if s.id == id then
      { s with topicName := some name, topicNameKey := some key, topicThreadId := some t }
    else s

/-- `prisma.subscription.updateMany` clearing the thread for every row
sharing `(chatId, topicNameKey)` (topics.ts lines 80-86, force path). -/
def dbClearThreads (db : TopicDb) (chatId key : String) : TopicDb :=
  db.map fun s =>
    if s.chatId == chatId && s.topicNameKey == some key then
      { s with topicThreadId := none }
    else s

/-- `prisma.subscription.updateMany` assigning the fresh thread to every
still-unassigned row sharing `(chatId, topicNameKey)` (topics.ts lines
117-128). -/
def dbAssignThreads (db : TopicDb) (chatId key name : String) (t : Int) : TopicDb :=
  db.map fun s =>
    if s.chatId == chatId && s.topicNameKey == some key && s.topicThreadId == none then
      { s with topicName := some name, topicNameKey := some key, topicThreadId := some t }
    else s

/-- The canonical topic name derived from the stored name or the feed name
(topics.ts line 66). -/
def derivedTopicName (input : EnsureTopicInput) : String :=
  buildTopicNameFromFeed (input.topicName.getD input.feedName)

/-- The topic lookup key derived from the stored key or the canonical name
(topics.ts line 67). -/
def derivedTopicKey (input : EnsureTopicInput) : String :=
  normalizeTopicName (input.topicNameKey.getD (derivedTopicName input))

/-- `ensureTopicForSubscription` (topics.ts lines 65-147).  Returns the
resolved thread id (or `none` for main-stream delivery), the updated table,
and whether `createForumTopic` was invoked.  Paths, in source order:
derive name and key; empty key → `none`; persist name/key on the calling
row; fast path (not forcing, thread already assigned) returns it; forcing
clears every thread sharing the key; otherwise an assigned thread of any
row sharing `(chatId, key)` is adopted; else probe forum capability; else
create the topic, assign it to every unassigned row sharing the key, and
return it (a create failure degrades to `none`). -/
def ensureTopicForSubscription (isForum : String → Bool) (createResult : Option Int)
    (db : TopicDb) (input : EnsureTopicInput) : Option Int × TopicDb × Bool :=
  let topicName := derivedTopicName input
  let topicNameKey := derivedTopicKey input
  if topicNameKey = "" then (none, db, false)
  else
    let db1 := dbSetNameKey db input.subscriptionId topicName topicNameKey
    if input.forceRecreate = false ∧ input.topicThreadId.isSome then
      (input.topicThreadId, db1, false)
    else
      let afterBranch :=
        if input.forceRecreate then
          Sum.inl (dbClearThreads db1 input.chatId topicNameKey)
        else
          match findAssigned db1 input.chatId topicNameKey with
          | some s0 =>
            match s0.topicThreadId with
            | some t =>
              Sum.inr (t, dbSetAll db1 input.subscriptionId topicName topicNameKey t)
            | none => Sum.inl db1
          | none => Sum.inl db1
      match afterBranch with
      | Sum.inr (t, db2) => (some t, db2, false)
      | Sum.inl db2 =>
        if isForum input.chatId = false then (none, db2, false)
        else
          match createResult with
          | none => (none, db2, true)
          | some t =>
            let db3 := dbAssignThreads db2 input.chatId topicNameKey topicName t
            let db4 := dbSetAll db3 input.subscriptionId topicName topicNameKey t
            (some t, db4, true)

/-- The thread currently assigned to the row with the given id. -/
def dbThreadOf (db : TopicDb) (id : String) : Option Int :=
  match db.find? (fun s => s.id == id) with
  | some s => s.topicThreadId
  | none => none

/-- The `EnsureTopicInput` that `checkFeed` builds from a subscription row
and the feed name (fetcher.ts lines 274-281, `forceRecreate` unset). -/
def inputOfSub (sub : Subscription) (feedName : String) : EnsureTopicInput :=
  ⟨sub.id, sub.chatId, feedName, sub.topicName, sub.topicNameKey, sub.topicThreadId, false⟩

/-! ## Component: poll scheduler (`src/unnamed/part_013`, `scheduler/`)

`scheduleFeed` first removes any existing job for the feed, then registers
a `node-cron` task whose callback runs `checkFeed` and is *not* awaited by
the cron library: the library invokes the callback at every matching tick
whether or not a previous invocation's promise has settled.  The transition
system below models exactly that: `jobs` is the registry map (feed ids with
a registered task), `running` the in-flight `checkFeed` invocations (feed
id paired with a distinguishing tag), and a `fire` step is enabled whenever
a task is registered, with no guard on `running` — the source callback
(part_013 lines 33-39) contains no such guard. -/

/-- Scheduler state: the timer registry plus the in-flight invocations. -/
structure SchedState where
  jobs : List String
  running : List (String × Nat)
  nextTag : Nat
deriving DecidableEq

/-- The scheduler events: the two registry mutations (part_013 lines 28-50),
shutdown (lines 52-58), a cron tick firing a registered task, and a
`checkFeed` invocation finishing. -/
inductive SchedStep : SchedState → SchedState → Prop
  | schedule (st : SchedState) (fid : String) :
      SchedStep st ⟨fid :: st.jobs.filter (fun j => j != fid), st.running, st.nextTag⟩
  | unschedule (st : SchedState) (fid : String) :
      SchedStep st ⟨st.jobs.filter (fun j => j != fid), st.running, st.nextTag⟩
  | stopAll (st : SchedState) :
      SchedStep st ⟨[], st.running, st.nextTag⟩
  | fire (st : SchedState) (fid : String) (h : fid ∈ st.jobs) :
      SchedStep st ⟨st.jobs, st.running ++ [(fid, st.nextTag)], st.nextTag + 1⟩
  | finish (st : SchedState) (fid : String) (tag : Nat) (h : (fid, tag) ∈ st.running) :
      SchedStep st ⟨st.jobs, st.running.erase (fid, tag), st.nextTag⟩

/-- The scheduler's initial state (empty registry, nothing in flight). -/
def schedInit : SchedState := ⟨[], [], 0⟩

/-- Reachability from the initial scheduler state. -/
def SchedReachable (st : SchedState) : Prop :=
  Relation.ReflTransGen SchedStep schedInit st

/-- The number of in-flight `checkFeed` invocations for one feed. -/
def runningCount (st : SchedState) (fid : String) : Nat :=
  (st.running.filter (fun p => p.1 == fid)).length

/-! ## Theorems -/

/-! ### Formatter lemmas (claim C10) -/

theorem replaceChar_append (c : Char) (r l1 l2 : List Char) :
    replaceChar c r (l1 ++ l2) = replaceChar c r l1 ++ replaceChar c r l2 := by
  induction l1 with
  | nil => simp [replaceChar]
  | cons a as ih => by_cases h : a = c <;> simp [replaceChar, h, ih]

theorem count_replaceChar_self (c : Char) (r l : List Char) (hc : c ∉ r) :
    (replaceChar c r l).count c = 0 := by
  induction l with
  | nil => simp [replaceChar]
  | cons a as ih =>
    by_cases h : a = c
    · simp [replaceChar, h, List.count_append, ih,
        List.count_eq_zero_of_not_mem hc]
    · simp [replaceChar, h, List.count_cons, ih, Ne.symm h]

theorem count_replaceChar_other (x c : Char) (r l : List Char) (hx : x ∉ r)
    (hxc : x ≠ c) : (replaceChar c r l).count x = l.count x := by
  induction l with
  | nil => simp [replaceChar]
  | cons a as ih =>
    by_cases h : a = c
    · subst h
      simp [replaceChar, List.count_append, ih,
        List.count_eq_zero_of_not_mem hx, List.count_cons, hxc]
    · simp [replaceChar, List.count_cons, h, ih]

theorem count_escapeHtmlList_lt (l : List Char) : (escapeHtmlList l).count '<' = 0 := by
  unfold escapeHtmlList
  rw [count_replaceChar_other '<' '"' _ _ (by decide) (by decide),
    count_replaceChar_other '<' '>' _ _ (by decide) (by decide),
    count_replaceChar_self '<' _ _ (by decide)]

theorem count_escapeHtmlList_gt (l : List Char) : (escapeHtmlList l).count '>' = 0 := by
  unfold escapeHtmlList
  rw [count_replaceChar_other '>' '"' _ _ (by decide) (by decide),
    count_replaceChar_self '>' _ _ (by decide)]

theorem count_escapeHtmlList_quot (l : List Char) :
    (escapeHtmlList l).count '"' = 0 := by
  unfold escapeHtmlList
  rw [count_replaceChar_self '"' _ _ (by decide)]

theorem escapeHtmlList_append (l1 l2 : List Char) :
    escapeHtmlList (l1 ++ l2) = escapeHtmlList l1 ++ escapeHtmlList l2 := by
  simp [escapeHtmlList, replaceChar_append]

theorem escapeHtmlList_singleton (a : Char) :
    escapeHtmlList [a] = escapeHtmlEntity a := by
  by_cases h1 : a = '&'
  · subst h1; decide
  by_cases h2 : a = '<'
  · subst h2; decide
  by_cases h3 : a = '>'
  · subst h3; decide
  by_cases h4 : a = '"'
  · subst h4; decide
  simp [escapeHtmlList, replaceChar, escapeHtmlEntity, h1, h2, h3, h4]

theorem escapeHtmlList_eq_flatMap (l : List Char) :
    escapeHtmlList l = l.flatMap escapeHtmlEntity := by
  induction l with
  | nil => simp [escapeHtmlList, replaceChar]
  | cons a as ih =>
    have h : a :: as = [a] ++ as := rfl
    rw [h, escapeHtmlList_append, escapeHtmlList_singleton, ih]
    simp

theorem countIn_append (c : Char) (a b : String) :
    countIn c (a ++ b) = countIn c a + countIn c b := by
  show ((a ++ b).data.count c) = a.data.count c + b.data.count c
  rw [String.data_append, List.count_append]

theorem countIn_escapeHtml_lt (s : String) : countIn '<' (escapeHtml s) = 0 :=
  count_escapeHtmlList_lt s.toList

/-- The count of a character in a trailing-trimmed list never exceeds the
original count. -/
theorem count_trimTrailing_le (x : Char) (cs : List Char) :
    (trimTrailing cs).count x ≤ cs.count x := by
  unfold trimTrailing
  calc ((cs.reverse.dropWhile Char.isWhitespace).reverse).count x
      = (cs.reverse.dropWhile Char.isWhitespace).count x := List.count_reverse ..
    _ ≤ cs.reverse.count x := (List.dropWhile_sublist _).count_le x
    _ = cs.count x := List.count_reverse ..

/-- The description fragment of the message template contributes no raw
angle bracket, whether absent or escaped. -/
theorem countIn_descPart (pd : String) (cap : Nat) :
    countIn '<' (descPartOf pd cap) = 0 := by
  unfold descPartOf
  split
  · decide
  · rw [countIn_append, countIn_escapeHtml_lt]
    decide

/-- The footer of the message template contributes exactly the two angle
brackets of its `<i>` tag, whatever the author field holds. -/
theorem countIn_footer (o : Option String) (dateStr : String)
    (hd : countIn '<' dateStr = 0) :
    countIn '<' (footerOf o dateStr) = 2 := by
  unfold footerOf
  cases h : truthyStr o with
  | some a =>
    rw [countIn_append, countIn_append, countIn_append, countIn_escapeHtml_lt, hd]
    decide
  | none =>
    rw [countIn_append, countIn_append, hd]
    decide

/-- The count of raw angle brackets in the assembled message body: ten from
the fixed template, none from any escaped field, plus whatever the raw link
carries. -/
theorem countIn_msgBody (feedName title link descPart footer : String)
    (hl : countIn '<' link = 0) (hdp : countIn '<' descPart = 0)
    (hf : countIn '<' footer = 2) :
    countIn '<' ("<blockquote>📰 <b>" ++ escapeHtml feedName ++ "</b></blockquote>"
      ++ "\n<b><a href=\"" ++ link ++ "\">" ++ escapeHtml title ++ "</a></b>"
      ++ descPart ++ "\n\n" ++ footer) = 10 := by
  repeat rw [countIn_append]
  rw [countIn_escapeHtml_lt, countIn_escapeHtml_lt, hl, hdp, hf]
  decide

theorem countIn_mk (c : Char) (l : List Char) : countIn c (String.mk l) = l.count c := rfl

/-- Claim C10, amended: `escapeHtml` leaves no raw angle bracket or double
quote (each of the four special characters becomes its HTML entity), and
`formatArticleMessage` escapes the feed name, title, author and description
it embeds — but the article link is embedded unescaped inside the `href`
attributes, so the assembled HTML is markup-clean only when the link itself
contains no markup character: whenever the link (and the rendered date)
contain no raw angle bracket, the message text contains exactly the ten
angle brackets of the fixed template, and the photo caption at most ten. -/
theorem escapeHtml_and_format_no_injection :
    (∀ s : String,
      countIn '<' (escapeHtml s) = 0 ∧ countIn '>' (escapeHtml s) = 0 ∧
      countIn '"' (escapeHtml s) = 0 ∧
      (escapeHtml s).toList = s.toList.flatMap escapeHtmlEntity) ∧
    (∀ (cleanFn : String → String) (dateStr : String) (article : ArticleData),
      countIn '<' article.link = 0 → countIn '<' dateStr = 0 →
      countIn '<' (formatArticleMessage cleanFn dateStr article).text = 10 ∧
      countIn '<' (formatArticleMessage cleanFn dateStr article).caption ≤ 10) := by
  constructor
  · intro s
    exact ⟨count_escapeHtmlList_lt s.toList, count_escapeHtmlList_gt s.toList,
      count_escapeHtmlList_quot s.toList, escapeHtmlList_eq_flatMap s.toList⟩
  · intro cleanFn dateStr article hl hd
    constructor
    · simp only [formatArticleMessage]
      exact countIn_msgBody article.feedName article.title article.link _ _ hl
        (countIn_descPart _ 300) (countIn_footer article.author dateStr hd)
    · simp only [formatArticleMessage]
      split
      · exact le_of_eq (countIn_msgBody article.feedName article.title article.link _ _ hl
          (countIn_descPart _ 180) (countIn_footer article.author dateStr hd))
      · rw [countIn_append, countIn_mk]
        have h1 : countIn '<' "…" = 0 := by decide
        rw [h1, Nat.add_zero]
        refine le_trans (count_trimTrailing_le '<' _) ?_
        refine le_trans ((List.take_sublist 1020 _).count_le '<') ?_
        exact le_of_eq (countIn_msgBody article.feedName article.title article.link _ _ hl
          (countIn_descPart _ 180) (countIn_footer article.author dateStr hd))

/-- Witness for the amended claim C10 at concrete inputs. -/
theorem escapeHtml_and_format_no_injection_witness :
    (countIn '<' (escapeHtml "a<b&c") = 0 ∧ countIn '>' (escapeHtml "a<b&c") = 0 ∧
      countIn '"' (escapeHtml "a<b&c") = 0 ∧
      (escapeHtml "a<b&c").toList = "a<b&c".toList.flatMap escapeHtmlEntity) ∧
    (countIn '<' (formatArticleMessage (fun s => s) "Jan 1, 2026"
        ⟨"F", "T", "http://e/x", none, none, none⟩).text = 10 ∧
      countIn '<' (formatArticleMessage (fun s => s) "Jan 1, 2026"
        ⟨"F", "T", "http://e/x", none, none, none⟩).caption ≤ 10) :=
  ⟨escapeHtml_and_format_no_injection.1 "a<b&c",
    escapeHtml_and_format_no_injection.2 (fun s => s) "Jan 1, 2026"
      ⟨"F", "T", "http://e/x", none, none, none⟩ (by decide) (by decide)⟩

/-- Counterexample to claim C10 as stated: the article link is feed-derived
and embedded into the `parse_mode: HTML` text without escaping, so feed
content *can* inject HTML markup — two articles differing only in the link
yield twelve raw angle brackets instead of the template's ten, the extra two
being an injected `<i>` tag from the link. -/
theorem formatter_link_injection_counterexample :
    countIn '<' (formatArticleMessage (fun s => s) "D"
      ⟨"F", "T", "\"><i>a</i>", none, none, none⟩).text = 12 ∧
    countIn '<' (formatArticleMessage (fun s => s) "D"
      ⟨"F", "T", "x", none, none, none⟩).text = 10 := by
  exact ⟨by decide, by decide⟩

/-! ### Telegram delivery retry (claim C9) -/

theorem minCapPow (w : Int) (i : Nat) :
    min (min (w * 2) 10000 * 2 ^ i) 10000 = min (w * 2 ^ (i + 1)) 10000 := by
  rcases le_or_lt (w * 2) 10000 with hle | hlt
  · rw [min_eq_left hle, pow_succ]
    ring_nf
  · have hpow : (1 : Int) ≤ 2 ^ i := one_le_pow₀ (by norm_num)
    have hpos : (0 : Int) < 2 ^ i := by positivity
    rw [min_eq_right hlt.le]
    have h1 : (10000 : Int) ≤ 10000 * 2 ^ i := le_mul_of_one_le_right (by norm_num) hpow
    rw [min_eq_right h1]
    have h2 : (10000 : Int) ≤ w * 2 ^ (i + 1) := by
      have hstep : (10000 : Int) * 2 ^ i ≤ (w * 2) * 2 ^ i :=
        mul_le_mul_of_nonneg_right hlt.le hpos.le
      calc (10000 : Int) ≤ 10000 * 2 ^ i := h1
        _ ≤ (w * 2) * 2 ^ i := hstep
        _ = w * 2 ^ (i + 1) := by rw [pow_succ]; ring
    rw [min_eq_right h2]

theorem telegramRetryGo_len {α : Type} (oracle : Nat → Except TgErr α) :
    ∀ fuel attempt waitMs, (telegramRetryGo oracle fuel attempt waitMs).2.length ≤ fuel := by
  intro fuel
  induction fuel with
  | zero =>
    intro attempt waitMs
    cases h : oracle attempt <;> simp [telegramRetryGo, h]
  | succ f ih =>
    intro attempt waitMs
    cases h : oracle attempt with
    | ok a => simp [telegramRetryGo, h]
    | error e =>
      by_cases hr : isRetryableTelegramError e
      · simpa [telegramRetryGo, h, hr, Nat.succ_le_succ_iff] using ih (attempt + 1) _
      · simp [telegramRetryGo, h, hr]

theorem telegramRetryGo_nonretry {α : Type} (oracle : Nat → Except TgErr α)
    (fuel attempt : Nat) (waitMs : Int) (e : TgErr) (h : oracle attempt = .error e)
    (hr : isRetryableTelegramError e = false) :
    telegramRetryGo oracle fuel attempt waitMs = (.error e, []) := by
  cases fuel <;> simp [telegramRetryGo, h, hr]

theorem telegramRetryGo_retry {α : Type} (oracle : Nat → Except TgErr α)
    (f attempt : Nat) (waitMs : Int) (e : TgErr) (h : oracle attempt = .error e)
    (hr : isRetryableTelegramError e = true) :
    1 ≤ (telegramRetryGo oracle (f + 1) attempt waitMs).2.length := by
  simp [telegramRetryGo, h, hr]

theorem telegramRetryGo_waits {α : Type} (oracle : Nat → Except TgErr α) :
    ∀ fuel attempt (waitMs : Int), waitMs ≤ 10000 →
    ∀ i, i < (telegramRetryGo oracle fuel attempt waitMs).2.length →
      ∃ e, oracle (attempt + i) = .error e ∧ isRetryableTelegramError e = true ∧
        (telegramRetryGo oracle fuel attempt waitMs).2.getD i 0 =
          (getTelegramRetryAfterMs e).getD (min (waitMs * 2 ^ i) 10000) := by
  intro fuel
  induction fuel with
  | zero =>
    intro attempt waitMs _ i h
    exfalso
    cases ho : oracle attempt <;> simp [telegramRetryGo, ho] at h
  | succ f ih =>
    intro attempt waitMs hw2 i h
    cases ho : oracle attempt with
    | ok a => exfalso; simp [telegramRetryGo, ho] at h
    | error e =>
      by_cases hr : isRetryableTelegramError e
      · cases i with
        | zero =>
          refine ⟨e, by simpa using ho, hr, ?_⟩
          simp [telegramRetryGo, ho, hr, pow_zero, mul_one, min_eq_left hw2]
        | succ j =>
          have hlen : j < (telegramRetryGo oracle f (attempt + 1)
              (min (waitMs * 2) 10000)).2.length := by
            simp [telegramRetryGo, ho, hr] at h
            omega
          obtain ⟨e2, he2, hr2, hget⟩ := ih (attempt + 1) (min (waitMs * 2) 10000)
            (min_le_right _ _) j hlen
          refine ⟨e2, by rw [show attempt + (j + 1) = attempt + 1 + j by omega]; exact he2,
            hr2, ?_⟩
          have hcons : (telegramRetryGo oracle (f + 1) attempt waitMs).2 =
              ((getTelegramRetryAfterMs e).getD waitMs) ::
                (telegramRetryGo oracle f (attempt + 1) (min (waitMs * 2) 10000)).2 := by
            simp [telegramRetryGo, ho, hr]
          rw [hcons, List.getD_cons_succ]
          rw [hget, minCapPow waitMs j]
      · exfalso
        simp [telegramRetryGo, ho, hr] at h

/-- Claim C9: the delivery engine retries a Telegram call only on a
retryable error (a transient network code, HTTP 429 or HTTP 500 and above),
making at most 5 total attempts (4 waits); a non-retryable first error is
rethrown at once with no wait; and the wait before retry `i` is the
server-specified `retry_after` delay when present, else the computed
backoff `min (600 * 2 ^ i) 10000` — 600 ms doubling, capped at 10 s. -/
theorem runWithTelegramRetry_policy {α : Type} (oracle : Nat → Except TgErr α) :
    (runWithTelegramRetry oracle).2.length ≤ 4 ∧
    (∀ e, oracle 1 = .error e → isRetryableTelegramError e = false →
      runWithTelegramRetry oracle = (.error e, [])) ∧
    (∀ e, oracle 1 = .error e → isRetryableTelegramError e = true →
      1 ≤ (runWithTelegramRetry oracle).2.length) ∧
    (∀ i, i < (runWithTelegramRetry oracle).2.length →
      ∃ e, oracle (1 + i) = .error e ∧ isRetryableTelegramError e = true ∧
        (runWithTelegramRetry oracle).2.getD i 0 =
          (getTelegramRetryAfterMs e).getD (min (600 * 2 ^ i) 10000)) ∧
    (∀ n : Int, isRetryableTelegramError { TgErr.none with status := some n } = true ↔
      (n = 429 ∨ 500 ≤ n)) := by
  refine ⟨telegramRetryGo_len oracle 4 1 600,
    fun e h hr => telegramRetryGo_nonretry oracle 4 1 600 e h hr,
    fun e h hr => telegramRetryGo_retry oracle 3 1 600 e h hr,
    fun i h => telegramRetryGo_waits oracle 4 1 600 (by norm_num) i h,
    fun n => ?_⟩
  simp [isRetryableTelegramError, TgErr.none, RETRYABLE_NETWORK_CODES]

/-- Witness for claim C9 at concrete oracles: an HTTP 400 error fails at
once with no retry; an HTTP 500 error triggers a retry whose wait is the
600 ms base backoff. -/
theorem runWithTelegramRetry_policy_witness :
    runWithTelegramRetry (fun n => if n = 1
        then Except.error { TgErr.none with status := some 400 }
        else Except.ok 7)
      = (.error { TgErr.none with status := some 400 }, []) ∧
    1 ≤ (runWithTelegramRetry (fun n => if n = 1
        then Except.error { TgErr.none with status := some 500 }
        else Except.ok 7)).2.length ∧
    (∃ e, (fun n => if n = 1
        then Except.error { TgErr.none with status := some 500 }
        else Except.ok 7) (1 + 0) = .error e ∧ isRetryableTelegramError e = true ∧
      (runWithTelegramRetry (fun n => if n = 1
          then Except.error { TgErr.none with status := some 500 }
          else Except.ok 7)).2.getD 0 0 =
        (getTelegramRetryAfterMs e).getD (min (600 * 2 ^ 0) 10000)) := by
  refine ⟨?_, ?_, ?_⟩
  · exact (runWithTelegramRetry_policy (fun n => if n = 1
      then Except.error { TgErr.none with status := some 400 }
      else Except.ok 7)).2.1 _ rfl (by decide)
  · exact (runWithTelegramRetry_policy (fun n => if n = 1
      then Except.error { TgErr.none with status := some 500 }
      else Except.ok 7)).2.2.1 _ rfl (by decide)
  · exact (runWithTelegramRetry_policy (fun n => if n = 1
      then Except.error { TgErr.none with status := some 500 }
      else Except.ok 7)).2.2.2.1 0 (by decide)

/-! ### Feed fetch retry (claim C4) -/

theorem fetchRetryGo_len (oracle : Nat → Except FetchErr String) :
    ∀ fuel attempt, (fetchRetryGo oracle fuel attempt).2.length ≤ fuel := by
  intro fuel
  induction fuel with
  | zero =>
    intro attempt
    cases h : oracle attempt <;> simp [fetchRetryGo, h]
  | succ f ih =>
    intro attempt
    cases h : oracle attempt with
    | ok s => simp [fetchRetryGo, h]
    | error e =>
      by_cases hr : retryableFetch e
      · simpa [fetchRetryGo, h, hr, Nat.succ_le_succ_iff] using ih (attempt + 1)
      · simp [fetchRetryGo, h, hr]

theorem fetchRetryGo_nonretry (oracle : Nat → Except FetchErr String)
    (fuel attempt : Nat) (e : FetchErr) (h : oracle attempt = .error e)
    (hr : retryableFetch e = false) :
    fetchRetryGo oracle fuel attempt = (.error e, []) := by
  cases fuel <;> simp [fetchRetryGo, h, hr]

theorem fetchRetryGo_retry (oracle : Nat → Except FetchErr String)
    (f attempt : Nat) (e : FetchErr) (h : oracle attempt = .error e)
    (hr : retryableFetch e = true) :
    1 ≤ (fetchRetryGo oracle (f + 1) attempt).2.length := by
  simp [fetchRetryGo, h, hr]

theorem fetchRetryGo_waits (oracle : Nat → Except FetchErr String) :
    ∀ fuel attempt i, i < (fetchRetryGo oracle fuel attempt).2.length →
      ∃ e, oracle (attempt + i) = .error e ∧ retryableFetch e = true ∧
        (fetchRetryGo oracle fuel attempt).2.getD i 0 =
          (fetchRetryAfterMs e).getD (min (5000 * 2 ^ (attempt + i)) 60000) := by
  intro fuel
  induction fuel with
  | zero =>
    intro attempt i h
    exfalso
    cases ho : oracle attempt <;> simp [fetchRetryGo, ho] at h
  | succ f ih =>
    intro attempt i h
    cases ho : oracle attempt with
    | ok s => exfalso; simp [fetchRetryGo, ho] at h
    | error e =>
      by_cases hr : retryableFetch e
      · cases i with
        | zero =>
          refine ⟨e, by simpa using ho, hr, ?_⟩
          simp [fetchRetryGo, ho, hr]
        | succ j =>
          have hlen : j < (fetchRetryGo oracle f (attempt + 1)).2.length := by
            simp [fetchRetryGo, ho, hr] at h
            omega
          obtain ⟨e2, he2, hr2, hget⟩ := ih (attempt + 1) j hlen
          refine ⟨e2, by rw [show attempt + (j + 1) = attempt + 1 + j by omega]; exact he2,
            hr2, ?_⟩
          have hcons : (fetchRetryGo oracle (f + 1) attempt).2 =
              ((fetchRetryAfterMs e).getD (min (5000 * 2 ^ attempt) 60000)) ::
                (fetchRetryGo oracle f (attempt + 1)).2 := by
            simp [fetchRetryGo, ho, hr]
          rw [hcons, List.getD_cons_succ, hget,
            show attempt + 1 + j = attempt + (j + 1) by omega]
      · exfalso
        simp [fetchRetryGo, ho, hr] at h

/-- Claim C4: the feed fetcher retries only on HTTP 429 or 503 (the two
retryable upstream statuses), making at most 3 total attempts (2 waits);
any other error — another 4xx/5xx status, an unsafe target, a bad content
type, too many redirects, or a network error — fails immediately with no
retry; and the wait before retry `i` honors the server-provided
`Retry-After` delay when present, else the computed backoff
`min (5000 * 2 ^ i) 60000` — 5 s base, doubling, capped at 60 s. -/
theorem fetchUrlWithRetry_policy (oracle : Nat → Except FetchErr String) :
    (fetchUrlWithRetry oracle).2.length ≤ 2 ∧
    (∀ e, oracle 0 = .error e → retryableFetch e = false →
      fetchUrlWithRetry oracle = (.error e, [])) ∧
    (∀ e, oracle 0 = .error e → retryableFetch e = true →
      1 ≤ (fetchUrlWithRetry oracle).2.length) ∧
    (∀ i, i < (fetchUrlWithRetry oracle).2.length →
      ∃ e, oracle i = .error e ∧ retryableFetch e = true ∧
        (fetchUrlWithRetry oracle).2.getD i 0 =
          (fetchRetryAfterMs e).getD (min (5000 * 2 ^ i) 60000)) ∧
    (∀ s r, retryableFetch (.httpStatus s r) = true ↔ (s = 429 ∨ s = 503)) ∧
    retryableFetch .networkErr = false ∧ retryableFetch .unsafeTarget = false ∧
    retryableFetch .tooManyRedirects = false ∧
    retryableFetch .invalidContentType = false := by
  refine ⟨fetchRetryGo_len oracle 2 0,
    fun e h hr => fetchRetryGo_nonretry oracle 2 0 e h hr,
    fun e h hr => fetchRetryGo_retry oracle 1 0 e h hr,
    fun i h => by simpa using fetchRetryGo_waits oracle 2 0 i h,
    fun s r => ?_, rfl, rfl, rfl, rfl⟩
  simp [retryableFetch]

/-- Witness for claim C4 at concrete oracles: an HTTP 404 fails at once; a
network error fails at once; an HTTP 503 first attempt is retried, the wait
being the 5 s base backoff. -/
theorem fetchUrlWithRetry_policy_witness :
    fetchUrlWithRetry (fun n => if n = 0
        then Except.error (.httpStatus 404 none) else Except.ok "ok")
      = (.error (.httpStatus 404 none), []) ∧
    fetchUrlWithRetry (fun n => if n = 0
        then Except.error .networkErr else Except.ok "ok")
      = (.error .networkErr, []) ∧
    (∃ e, (fun n => if n = 0
        then Except.error (.httpStatus 503 none) else Except.ok "ok") 0 = .error e ∧
      retryableFetch e = true ∧
      (fetchUrlWithRetry (fun n => if n = 0
          then Except.error (.httpStatus 503 none) else Except.ok "ok")).2.getD 0 0 =
        (fetchRetryAfterMs e).getD (min (5000 * 2 ^ 0) 60000)) := by
  refine ⟨?_, ?_, ?_⟩
  · exact (fetchUrlWithRetry_policy (fun n => if n = 0
      then Except.error (.httpStatus 404 none) else Except.ok "ok")).2.1 _ rfl (by decide)
  · exact (fetchUrlWithRetry_policy (fun n => if n = 0
      then Except.error .networkErr else Except.ok "ok")).2.1 _ rfl rfl
  · exact (fetchUrlWithRetry_policy (fun n => if n = 0
      then Except.error (.httpStatus 503 none) else Except.ok "ok")).2.2.2.1 0 (by decide)

/-! ### Safe fetcher SSRF validation (claim C3) -/

theorem fetchRespTail_conns (u : Url) (res : HttpResp) : (fetchRespTail u res).2 = [u] := by
  unfold fetchRespTail
  split <;> rfl

theorem fetchDecide_done_conns (u : Url) (res : HttpResp)
    (r : Except FetchErr String × List Url) (h : fetchDecide u res = .done r) :
    r.2 = [u] := by
  unfold fetchDecide at h
  split at h
  · injection h with h1
    rw [← h1]
  · split at h
    · split at h
      · exact absurd h (by simp)
      · injection h with h1
        rw [← h1]
        exact fetchRespTail_conns u res
    · injection h with h1
      rw [← h1]
      exact fetchRespTail_conns u res

theorem validateUrlSafety_true_of_not_false {u : Url}
    (h : ¬ validateUrlSafety u = false) : validateUrlSafety u = true := by
  revert h
  cases validateUrlSafety u <;> simp

theorem fetchUrl_conns_validated (oracle : Url → Option HttpResp) :
    ∀ fuel (u v : Url), v ∈ (fetchUrl oracle fuel u).2 → validateUrlSafety v = true := by
  intro fuel
  induction fuel with
  | zero =>
    intro u v hv
    by_cases hval : validateUrlSafety u = false
    · simp [fetchUrl, hval] at hv
    · have hval' := validateUrlSafety_true_of_not_false hval
      cases ho : oracle u with
      | none =>
        simp [fetchUrl, hval', ho] at hv
        rw [hv]; exact hval'
      | some res =>
        cases hd : fetchDecide u res with
        | done r =>
          have h2 : r.2 = [u] := fetchDecide_done_conns _ _ _ hd
          simp [fetchUrl, hval', ho, hd, h2] at hv
          rw [hv]; exact hval'
        | follow next =>
          simp [fetchUrl, hval', ho, hd] at hv
          rw [hv]; exact hval'
  | succ f ih =>
    intro u v hv
    by_cases hval : validateUrlSafety u = false
    · simp [fetchUrl, hval] at hv
    · have hval' := validateUrlSafety_true_of_not_false hval
      cases ho : oracle u with
      | none =>
        simp [fetchUrl, hval', ho] at hv
        rw [hv]; exact hval'
      | some res =>
        cases hd : fetchDecide u res with
        | done r =>
          have h2 : r.2 = [u] := fetchDecide_done_conns _ _ _ hd
          simp [fetchUrl, hval', ho, hd, h2] at hv
          rw [hv]; exact hval'
        | follow next =>
          simp [fetchUrl, hval', ho, hd] at hv
          rcases hv with hv | hv
          · rw [hv]; exact hval'
          · exact ih next v hv

/-- Claim C3, amended: the fetcher validates the URL host *as written*, not
as resolved — a hostname that is a literal IP in any non-public range
(private, loopback, link-local, or any other non-unicast range) is rejected
with the unsafe-target error before any connection is made, the same
validation runs again on every redirect hop before it is followed (every
URL actually connected to passed it), but a hostname that is not an IP
literal is never checked against the address it resolves to. -/
theorem fetchUrl_ssrf_validation :
    (∀ (u : Url) ip, parseIPv4 u.host = some ip → ipv4Range ip ≠ .unicast →
      validateUrlSafety u = false) ∧
    (∀ (oracle : Url → Option HttpResp) fuel u, validateUrlSafety u = false →
      fetchUrl oracle fuel u = (.error .unsafeTarget, [])) ∧
    (∀ (oracle : Url → Option HttpResp) fuel (u v : Url),
      v ∈ (fetchUrl oracle fuel u).2 → validateUrlSafety v = true) ∧
    (∀ (u : Url), parseIPv4 u.host = none → validateUrlSafety u = true) := by
  refine ⟨?_, ?_, fun oracle fuel u v h => fetchUrl_conns_validated oracle fuel u v h, ?_⟩
  · intro u ip hip hne
    simp [validateUrlSafety, isSafeIP, hip, hne]
  · intro oracle fuel u h
    cases fuel <;> simp [fetchUrl, h]
  · intro u hip
    simp [validateUrlSafety, hip]

/-- Witness for the amended claim C3 at concrete inputs: the literal
private address `10.0.0.1` is rejected before connecting, and a fetch of a
well-formed public host connects only to hosts that passed validation. -/
theorem fetchUrl_ssrf_validation_witness :
    validateUrlSafety ⟨"10.0.0.1"⟩ = false ∧
    fetchUrl (fun _ => some ⟨200, none, some "application/rss+xml", none, "feed"⟩) 5
      ⟨"10.0.0.1"⟩ = (.error .unsafeTarget, []) ∧
    validateUrlSafety ⟨"example.com"⟩ = true := by
  refine ⟨fetchUrl_ssrf_validation.1 ⟨"10.0.0.1"⟩ (10, 0, 0, 1) (by decide) (by decide),
    fetchUrl_ssrf_validation.2.1 _ 5 _
      (fetchUrl_ssrf_validation.1 ⟨"10.0.0.1"⟩ (10, 0, 0, 1) (by decide) (by decide)),
    fetchUrl_ssrf_validation.2.2.1
      (fun _ => some ⟨200, none, some "application/rss+xml", none, "feed"⟩) 5
      ⟨"example.com"⟩ ⟨"example.com"⟩ ?_⟩
  decide

/-- Counterexample to claim C3 as stated: the hostname `localhost` resolves
to the loopback address `127.0.0.1`, yet the fetch validates nothing (the
name is not an IP literal), connects, and succeeds — no `UnsafeTargetError`
is raised before connecting. -/
theorem fetchUrl_resolved_host_counterexample : ¬ c3ClaimAsStated := by
  intro h
  have h2 := h (fun _ => (127, 0, 0, 1))
    (fun _ => some ⟨200, none, some "application/rss+xml", none, "feed"⟩) 5 ⟨"localhost"⟩
    (Or.inr (Or.inl (by decide)))
  have h3 : fetchUrl
      (fun _ => some ⟨200, none, some "application/rss+xml", none, "feed"⟩) 5
      (⟨"localhost"⟩ : Url) = (.ok "feed", [⟨"localhost"⟩]) := rfl
  rw [h3] at h2
  exact absurd h2 (by simp)

/-! ### Orchestrator lemmas (claims C1, C5, C6, C7) -/

theorem mem_insertByKey (x y : ParsedItem) (l : List ParsedItem) :
    y ∈ insertByKey x l ↔ y = x ∨ y ∈ l := by
  induction l with
  | nil => simp [insertByKey]
  | cons z zs ih =>
    by_cases h : pubKey z ≤ pubKey x
    · simp only [insertByKey, if_pos h, List.mem_cons, ih]
      tauto
    · simp only [insertByKey, if_neg h, List.mem_cons]

theorem pairwise_insertByKey (x : ParsedItem) (l : List ParsedItem)
    (hl : List.Pairwise (fun a b => pubKey a ≤ pubKey b) l) :
    List.Pairwise (fun a b => pubKey a ≤ pubKey b) (insertByKey x l) := by
  induction l with
  | nil => simp [insertByKey]
  | cons z zs ih =>
    rcases List.pairwise_cons.mp hl with ⟨hz, hzs⟩
    by_cases h : pubKey z ≤ pubKey x
    · simp only [insertByKey, if_pos h]
      refine List.pairwise_cons.mpr ⟨?_, ih hzs⟩
      intro b hb
      rcases (mem_insertByKey x b zs).mp hb with rfl | hbz
      · exact h
      · exact hz b hbz
    · simp only [insertByKey, if_neg h]
      refine List.pairwise_cons.mpr ⟨?_, hl⟩
      intro b hb
      have hxz : pubKey x ≤ pubKey z := le_of_lt (lt_of_not_le h)
      rcases List.mem_cons.mp hb with rfl | hbzs
      · exact hxz
      · exact le_trans hxz (hz b hbzs)

theorem pairwise_sortByPubDate (l : List ParsedItem) :
    List.Pairwise (fun a b => pubKey a ≤ pubKey b) (sortByPubDate l) := by
  have aux : ∀ (l acc : List ParsedItem),
      List.Pairwise (fun a b => pubKey a ≤ pubKey b) acc →
      List.Pairwise (fun a b => pubKey a ≤ pubKey b)
        (l.foldl (fun acc x => insertByKey x acc) acc) := by
    intro l
    induction l with
    | nil => intro acc h; simpa using h
    | cons x xs ih => intro acc h; exact ih _ (pairwise_insertByKey x acc h)
  exact aux l [] (by simp)

theorem mem_sortByPubDate (l : List ParsedItem) (x : ParsedItem) :
    x ∈ sortByPubDate l ↔ x ∈ l := by
  have aux : ∀ (l acc : List ParsedItem) (x : ParsedItem),
      x ∈ l.foldl (fun acc x => insertByKey x acc) acc ↔ x ∈ acc ∨ x ∈ l := by
    intro l
    induction l with
    | nil => intro acc x; simp
    | cons y ys ih =>
      intro acc x
      rw [List.foldl_cons, ih, mem_insertByKey]
      simp only [List.mem_cons]
      tauto
  simpa using aux l [] x

theorem keyLE_imp_timeLE (a b : ParsedItem) (h : pubKey a ≤ pubKey b) : timeLE a b := by
  unfold timeLE
  unfold pubKey at h
  cases ha : a.pubDate <;> cases hb : b.pubDate <;> simp_all

theorem checkItems_attempts_sublist (feed : Feed) (env : DeliverEnv) :
    ∀ (items : List ParsedItem) (ledger : List String),
      (checkItems feed env items ledger).2.Sublist items := by
  intro items
  induction items with
  | nil => intro ledger; simp [checkItems]
  | cons item rest ih =>
    intro ledger
    by_cases h1 : item.guid = ""
    · simp only [checkItems, if_pos h1]
      exact (ih ledger).cons item
    · by_cases h2 : item.guid ∈ ledger
      · simp only [checkItems, if_neg h1, if_pos h2]
        exact (ih ledger).cons item
      · simp only [checkItems, if_neg h1, if_neg h2]
        exact List.Sublist.cons₂ item (ih _)

theorem checkItems_attempts_guid_ne (feed : Feed) (env : DeliverEnv) :
    ∀ (items : List ParsedItem) (ledger : List String) (it : ParsedItem),
      it ∈ (checkItems feed env items ledger).2 → it.guid ≠ "" := by
  intro items
  induction items with
  | nil => intro ledger it h; simp [checkItems] at h
  | cons item rest ih =>
    intro ledger it h
    by_cases h1 : item.guid = ""
    · rw [checkItems, if_pos h1] at h
      exact ih ledger it h
    · by_cases h2 : item.guid ∈ ledger
      · rw [checkItems, if_neg h1, if_pos h2] at h
        exact ih ledger it h
      · simp only [checkItems, if_neg h1, if_neg h2, List.mem_cons] at h
        rcases h with rfl | h
        · exact h1
        · exact ih _ it h

theorem checkItems_ledger_mem (feed : Feed) (env : DeliverEnv) :
    ∀ (items : List ParsedItem) (ledger : List String) (g : String),
      g ∈ (checkItems feed env items ledger).1 ↔
        g ∈ ledger ∨ (g ≠ "" ∧ (∃ it ∈ items, it.guid = g) ∧
          (feed.subscriptions.any fun sub => deliverToSub env sub g) = true) := by
  intro items
  induction items with
  | nil => intro ledger g; simp [checkItems]
  | cons item rest ih =>
    intro ledger g
    by_cases h1 : item.guid = ""
    · rw [checkItems, if_pos h1, ih]
      constructor
      · rintro (h | ⟨hne, ⟨it, hit, hg⟩, hany⟩)
        · exact Or.inl h
        · exact Or.inr ⟨hne, ⟨it, List.mem_cons_of_mem _ hit, hg⟩, hany⟩
      · rintro (h | ⟨hne, ⟨it, hit, hg⟩, hany⟩)
        · exact Or.inl h
        · rcases List.mem_cons.mp hit with rfl | hit2
          · exact absurd (h1 ▸ hg) (Ne.symm hne)
          · exact Or.inr ⟨hne, ⟨it, hit2, hg⟩, hany⟩
    · by_cases h2 : item.guid ∈ ledger
      · rw [checkItems, if_neg h1, if_pos h2, ih]
        constructor
        · rintro (h | ⟨hne, ⟨it, hit, hg⟩, hany⟩)
          · exact Or.inl h
          · exact Or.inr ⟨hne, ⟨it, List.mem_cons_of_mem _ hit, hg⟩, hany⟩
        · rintro (h | ⟨hne, ⟨it, hit, hg⟩, hany⟩)
          · exact Or.inl h
          · rcases List.mem_cons.mp hit with rfl | hit2
            · exact Or.inl (hg ▸ h2)
            · exact Or.inr ⟨hne, ⟨it, hit2, hg⟩, hany⟩
      · cases hsent : (feed.subscriptions.any fun sub => deliverToSub env sub item.guid) with
        | true =>
          rw [checkItems, if_neg h1, if_neg h2]
          dsimp only
          rw [if_pos hsent, ih]
          constructor
          · rintro (hmem | ⟨hne, ⟨it, hit, hgg⟩, hany⟩)
            · rcases List.mem_append.mp hmem with hmem2 | hmem2
              · exact Or.inl hmem2
              · have hgi : g = item.guid := by simpa using hmem2
                subst hgi
                exact Or.inr ⟨h1, ⟨item, List.mem_cons_self _ _, rfl⟩, hsent⟩
            · exact Or.inr ⟨hne, ⟨it, List.mem_cons_of_mem _ hit, hgg⟩, hany⟩
          · rintro (hmem | ⟨hne, ⟨it, hit, hgg⟩, hany⟩)
            · exact Or.inl (List.mem_append_left _ hmem)
            · rcases List.mem_cons.mp hit with rfl | hit2
              · exact Or.inl (List.mem_append_right _ (by simp [hgg]))
              · exact Or.inr ⟨hne, ⟨it, hit2, hgg⟩, hany⟩
        | false =>
          rw [checkItems, if_neg h1, if_neg h2]
          dsimp only
          rw [if_neg (by simp [hsent]), ih]
          constructor
          · rintro (hmem | ⟨hne, ⟨it, hit, hgg⟩, hany⟩)
            · exact Or.inl hmem
            · exact Or.inr ⟨hne, ⟨it, List.mem_cons_of_mem _ hit, hgg⟩, hany⟩
          · rintro (hmem | ⟨hne, ⟨it, hit, hgg⟩, hany⟩)
            · exact Or.inl hmem
            · rcases List.mem_cons.mp hit with rfl | hit2
              · have hc : (feed.subscriptions.any fun sub =>
                    deliverToSub env sub it.guid) = true := by rw [hgg]; exact hany
                rw [hsent] at hc
                simp at hc
              · exact Or.inr ⟨hne, ⟨it, hit2, hgg⟩, hany⟩

theorem checkItems_attempts_mem (feed : Feed) (env : DeliverEnv) :
    ∀ (items : List ParsedItem) (ledger : List String) (g : String),
      (∃ it ∈ (checkItems feed env items ledger).2, it.guid = g) ↔
        (g ≠ "" ∧ g ∉ ledger ∧ ∃ it ∈ items, it.guid = g) := by
  intro items
  induction items with
  | nil => intro ledger g; simp [checkItems]
  | cons item rest ih =>
    intro ledger g
    by_cases h1 : item.guid = ""
    · rw [checkItems, if_pos h1, ih]
      constructor
      · rintro ⟨hne, hnl, it, hit, hg⟩
        exact ⟨hne, hnl, it, List.mem_cons_of_mem _ hit, hg⟩
      · rintro ⟨hne, hnl, it, hit, hg⟩
        rcases List.mem_cons.mp hit with rfl | hit2
        · exact absurd (h1 ▸ hg) (Ne.symm hne)
        · exact ⟨hne, hnl, it, hit2, hg⟩
    · by_cases h2 : item.guid ∈ ledger
      · rw [checkItems, if_neg h1, if_pos h2, ih]
        constructor
        · rintro ⟨hne, hnl, it, hit, hg⟩
          exact ⟨hne, hnl, it, List.mem_cons_of_mem _ hit, hg⟩
        · rintro ⟨hne, hnl, it, hit, hg⟩
          rcases List.mem_cons.mp hit with rfl | hit2
          · exact absurd (hg ▸ h2) hnl
          · exact ⟨hne, hnl, it, hit2, hg⟩
      · rw [checkItems]
        simp only [if_neg h1, if_neg h2]
        constructor
        · rintro ⟨it, hit, hg⟩
          rcases List.mem_cons.mp hit with rfl | hit2
          · exact ⟨hg ▸ h1, hg ▸ h2, it, List.mem_cons_self _ _, hg⟩
          · rcases (ih _ g).mp ⟨it, hit2, hg⟩ with ⟨hne, hnl2, it2, hit3, hg2⟩
            have hnl : g ∉ ledger := by
              intro hmem
              exact hnl2 (by
                split
                · exact List.mem_append_left _ hmem
                · exact hmem)
            exact ⟨hne, hnl, it2, List.mem_cons_of_mem _ hit3, hg2⟩
        · rintro ⟨hne, hnl, it, hit, hg⟩
          by_cases hgi : g = item.guid
          · exact ⟨item, List.mem_cons_self _ _, hgi.symm⟩
          · rcases List.mem_cons.mp hit with rfl | hit2
            · exact absurd hg.symm hgi
            · have hnl2 : g ∉ (if (feed.subscriptions.any fun sub =>
                  deliverToSub env sub item.guid) = true
                then ledger ++ [item.guid] else ledger) := by
                split
                · intro hmem
                  rcases List.mem_append.mp hmem with hmem | hmem
                  · exact hnl hmem
                  · exact hgi (List.mem_singleton.mp hmem)
                · exact hnl
              rcases (ih _ g).mpr ⟨hne, hnl2, it, hit2, hg⟩ with ⟨it2, hit3, hg2⟩
              exact ⟨it2, List.mem_cons_of_mem _ hit3, hg2⟩

theorem checkFeed_run_eq (feed : Feed) (items : List ParsedItem) (env : DeliverEnv)
    (ledger : List String) (hact : feed.active = true)
    (hsubs : ¬ feed.subscriptions = []) :
    checkFeed (some feed) (some items) env ledger =
      ⟨(checkItems feed env (sortByPubDate items) ledger).1,
        (checkItems feed env (sortByPubDate items) ledger).2, true, true⟩ := by
  simp [checkFeed, hact, hsubs]

/-- Claim C5, amended: a `checkFeed` invocation on a missing, inactive or
subscription-less feed exits at once — no network fetch, no delivery
attempt, no ledger change — and does *not* record the last-checked
timestamp (the source returns before the `lastCheckedAt` update). -/
theorem checkFeed_disabled_no_side_effects :
    ∀ (feedRow : Option Feed) (fetchResult : Option (List ParsedItem))
      (env : DeliverEnv) (ledger : List String),
      (feedRow = none ∨ ∃ feed, feedRow = some feed ∧
        (feed.active = false ∨ feed.subscriptions = [])) →
      checkFeed feedRow fetchResult env ledger = ⟨ledger, [], false, false⟩ := by
  intro feedRow fetchResult env ledger h
  rcases h with rfl | ⟨feed, rfl, hfa | hfs⟩
  · rfl
  · simp [checkFeed, hfa]
  · simp [checkFeed, hfs]

/-- Witness for the amended claim C5 at a concrete inactive feed. -/
theorem checkFeed_disabled_no_side_effects_witness :
    checkFeed (some ⟨"f", "u", false, [⟨"s1", "c1", none, none, none⟩]⟩)
      (some [⟨"a", "t", "l", none, none, none, none⟩])
      ⟨fun _ => none, fun _ => none, fun _ _ _ => .errOther⟩ ["x"] =
      ⟨["x"], [], false, false⟩ :=
  checkFeed_disabled_no_side_effects _ _ _ _
    (Or.inr ⟨_, rfl, Or.inl rfl⟩)

/-- Counterexample to claim C5 as stated: for an inactive feed — and for an
active feed with no active subscriptions — `checkFeed` exits *without*
recording the last-checked timestamp, while the claim says the timestamp is
still recorded before the invocation exits. -/
theorem checkFeed_disabled_timestamp_counterexample :
    (checkFeed (some ⟨"f", "u", false, [⟨"s1", "c1", none, none, none⟩]⟩)
      (some []) ⟨fun _ => none, fun _ => none, fun _ _ _ => .errOther⟩
      ["x"]).lastCheckedUpdated = false ∧
    (checkFeed (some ⟨"f", "u", true, []⟩)
      (some []) ⟨fun _ => none, fun _ => none, fun _ _ _ => .errOther⟩
      ["x"]).lastCheckedUpdated = false :=
  ⟨rfl, rfl⟩

/-! ### The delivery ordering against the full sort contract (claim C6) -/

theorem JsNum.eq_num_of_ne_nan (k : JsNum) (h : k ≠ JsNum.nan) :
    ∃ v, k = JsNum.num v := by
  cases k with
  | nan => exact absurd rfl h
  | num v => exact ⟨v, rfl⟩

theorem mem_insertByJsKey (x y : JsItem) (l : List JsItem) :
    y ∈ insertByJsKey x l ↔ y = x ∨ y ∈ l := by
  induction l with
  | nil => simp [insertByJsKey]
  | cons z zs ih =>
    by_cases h : (jsKey z.pubDate).le (jsKey x.pubDate) = true
    · simp only [insertByJsKey, if_pos h, List.mem_cons, ih]
      tauto
    · simp only [insertByJsKey, if_neg h, List.mem_cons]

theorem pairwise_insertByJsKey (x : JsItem) (l : List JsItem)
    (hx : jsKey x.pubDate ≠ JsNum.nan) :
    (∀ a ∈ l, jsKey a.pubDate ≠ JsNum.nan) →
    List.Pairwise (fun a b => (jsKey a.pubDate).le (jsKey b.pubDate) = true) l →
    List.Pairwise (fun a b => (jsKey a.pubDate).le (jsKey b.pubDate) = true)
      (insertByJsKey x l) := by
  induction l with
  | nil => intro _ _; simp [insertByJsKey]
  | cons z zs ih =>
    intro hl hp
    rcases List.pairwise_cons.mp hp with ⟨hz, hzs⟩
    by_cases h : (jsKey z.pubDate).le (jsKey x.pubDate) = true
    · simp only [insertByJsKey, if_pos h]
      refine List.pairwise_cons.mpr
        ⟨?_, ih (fun a ha => hl a (List.mem_cons_of_mem _ ha)) hzs⟩
      intro b hb
      rcases (mem_insertByJsKey x b zs).mp hb with rfl | hbz
      · exact h
      · exact hz b hbz
    · simp only [insertByJsKey, if_neg h]
      obtain ⟨vx, hvx⟩ := JsNum.eq_num_of_ne_nan _ hx
      obtain ⟨vz, hvz⟩ := JsNum.eq_num_of_ne_nan _ (hl z (List.mem_cons_self _ _))
      refine List.pairwise_cons.mpr ⟨?_, hp⟩
      intro b hb
      rcases List.mem_cons.mp hb with rfl | hbz
      · rw [hvx, hvz] at h ⊢
        simp only [JsNum.le, decide_eq_true_eq] at h ⊢
        omega
      · obtain ⟨vb, hvb⟩ := JsNum.eq_num_of_ne_nan _ (hl b (List.mem_cons_of_mem _ hbz))
        have hzb := hz b hbz
        rw [hvx, hvb]
        rw [hvz, hvb] at hzb
        rw [hvx, hvz] at h
        simp only [JsNum.le, decide_eq_true_eq] at h hzb ⊢
        omega

theorem pairwise_sortJsByKey (l : List JsItem)
    (hl : ∀ a ∈ l, jsKey a.pubDate ≠ JsNum.nan) :
    List.Pairwise (fun a b => (jsKey a.pubDate).le (jsKey b.pubDate) = true)
      (sortJsByKey l) := by
  have aux : ∀ (l acc : List JsItem),
      (∀ a ∈ l, jsKey a.pubDate ≠ JsNum.nan) →
      (∀ a ∈ acc, jsKey a.pubDate ≠ JsNum.nan) →
      List.Pairwise (fun a b => (jsKey a.pubDate).le (jsKey b.pubDate) = true) acc →
      List.Pairwise (fun a b => (jsKey a.pubDate).le (jsKey b.pubDate) = true)
        (l.foldl (fun acc x => insertByJsKey x acc) acc) := by
    intro l
    induction l with
    | nil => intro acc _ _ h; simpa using h
    | cons x xs ih =>
      intro acc hlx hacc h
      rw [List.foldl_cons]
      refine ih _ (fun a ha => hlx a (List.mem_cons_of_mem _ ha)) ?_ ?_
      · intro a ha
        rcases (mem_insertByJsKey x a acc).mp ha with rfl | haa
        · exact hlx a (List.mem_cons_self _ _)
        · exact hacc a haa
      · exact pairwise_insertByJsKey x acc (hlx x (List.mem_cons_self _ _)) hacc h
  exact aux l [] hl (by simp) List.Pairwise.nil

theorem jsle_imp_timeLEJs (a b : JsItem)
    (h : (jsKey a.pubDate).le (jsKey b.pubDate) = true) : timeLEJs a b := by
  unfold timeLEJs
  cases hpa : a.pubDate with
  | none =>
    cases hpb : b.pubDate with
    | none => trivial
    | some kb => cases kb <;> trivial
  | some ka =>
    cases ka with
    | nan =>
      cases hpb : b.pubDate with
      | none => trivial
      | some kb => cases kb <;> trivial
    | num ta =>
      rw [hpa] at h
      cases hpb : b.pubDate with
      | none =>
        rw [hpb] at h
        simp only [jsKey, JsNum.le, decide_eq_true_eq] at h
        exact h
      | some kb =>
        cases kb with
        | nan => trivial
        | num tb =>
          rw [hpb] at h
          simp only [jsKey, JsNum.le, decide_eq_true_eq] at h
          exact h

theorem checkItemsJs_attempts_sublist (feed : Feed) (env : DeliverEnv) :
    ∀ (items : List JsItem) (ledger : List String),
      (checkItemsJs feed env items ledger).2.Sublist items := by
  intro items
  induction items with
  | nil => intro ledger; simp [checkItemsJs]
  | cons item rest ih =>
    intro ledger
    by_cases h1 : item.guid = ""
    · simp only [checkItemsJs, if_pos h1]
      exact (ih ledger).cons item
    · by_cases h2 : item.guid ∈ ledger
      · simp only [checkItemsJs, if_neg h1, if_pos h2]
        exact (ih ledger).cons item
      · simp only [checkItemsJs, if_neg h1, if_neg h2]
        exact List.Sublist.cons₂ item (ih _)

theorem CheckFeedJsRun_intro (feed : Feed) (items its : List JsItem)
    (env : DeliverEnv) (ledger : List String)
    (hact : feed.active = true) (hsubs : ¬ feed.subscriptions = [])
    (hspec : jsSortSpec items its) :
    CheckFeedJsRun (some feed) (some items) env ledger
      ⟨(checkItemsJs feed env its ledger).1,
        (checkItemsJs feed env its ledger).2, true, true⟩ := by
  dsimp only [CheckFeedJsRun]
  rw [if_neg (by simp [hact]), if_neg hsubs]
  exact ⟨its, hspec, rfl⟩

theorem CheckFeedJsRun_elim (feed : Feed) (items : List JsItem)
    (env : DeliverEnv) (ledger : List String) (out : CheckOutcomeJs)
    (hact : feed.active = true) (hsubs : ¬ feed.subscriptions = [])
    (h : CheckFeedJsRun (some feed) (some items) env ledger out) :
    ∃ its, jsSortSpec items its ∧
      out = ⟨(checkItemsJs feed env its ledger).1,
        (checkItemsJs feed env its ledger).2, true, true⟩ := by
  dsimp only [CheckFeedJsRun] at h
  rw [if_neg (by simp [hact]), if_neg hsubs] at h
  exact h

/-- Claim C6, amended: in every cycle in which each fetched item's publish
date is either absent or valid — no Invalid Date, so the sort comparator
is consistent and the sort stage is the stable ascending sort — every
admissible outcome has its delivery attempts in non-decreasing
publish-time order with undated items ordered as earliest; and on the
concrete parser output with publish times [T3, T1, T2] the delivery
attempts happen in the order [T1, T2, T3].  With an Invalid Date present
the comparator returns NaN, ECMA-262 leaves the sort order
implementation-defined, and the guarantee fails (see the
counterexample). -/
theorem checkFeed_delivery_order_valid_dates :
    (∀ (feedRow : Option Feed) (fetchResult : Option (List JsItem))
      (env : DeliverEnv) (ledger : List String) (out : CheckOutcomeJs),
      (∀ items, fetchResult = some items →
        ∀ it ∈ items, jsKey it.pubDate ≠ JsNum.nan) →
      CheckFeedJsRun feedRow fetchResult env ledger out →
      List.Pairwise timeLEJs out.attempts) ∧
    (∀ out : CheckOutcomeJs,
      CheckFeedJsRun (some ⟨"f", "u", true, [⟨"s1", "c1", none, none, none⟩]⟩)
        (some [jsItemT3, jsItemT1, jsItemT2])
        ⟨fun _ => none, fun _ => none, fun _ _ _ => .ok⟩ [] out →
      out.attempts = [jsItemT1, jsItemT2, jsItemT3]) := by
  constructor
  · intro feedRow fetchResult env ledger out hkeys hrun
    cases feedRow with
    | none =>
      dsimp only [CheckFeedJsRun] at hrun
      subst hrun
      exact List.Pairwise.nil
    | some feed =>
      dsimp only [CheckFeedJsRun] at hrun
      by_cases hb : feed.active = false
      · rw [if_pos hb] at hrun
        subst hrun
        exact List.Pairwise.nil
      · rw [if_neg hb] at hrun
        by_cases hs : feed.subscriptions = []
        · rw [if_pos hs] at hrun
          subst hrun
          exact List.Pairwise.nil
        · rw [if_neg hs] at hrun
          cases fetchResult with
          | none =>
            dsimp only at hrun
            subst hrun
            exact List.Pairwise.nil
          | some items =>
            dsimp only at hrun
            obtain ⟨its, ⟨hperm, hsorted⟩, hout⟩ := hrun
            have hnn : ∀ it ∈ items, jsKey it.pubDate ≠ JsNum.nan := hkeys items rfl
            have hcons : ∀ a ∈ items, ∀ b ∈ items, deliveryCmp a b ≠ JsNum.nan := by
              intro a ha b hb2
              obtain ⟨va, hva⟩ := JsNum.eq_num_of_ne_nan _ (hnn a ha)
              obtain ⟨vb, hvb⟩ := JsNum.eq_num_of_ne_nan _ (hnn b hb2)
              simp [deliveryCmp, hva, hvb, JsNum.sub]
            subst hout
            rw [hsorted hcons]
            exact (List.Pairwise.sublist
              (checkItemsJs_attempts_sublist feed env (sortJsByKey items) ledger)
              (pairwise_sortJsByKey items hnn)).imp
              (fun h => jsle_imp_timeLEJs _ _ h)
  · intro out hrun
    obtain ⟨its, ⟨hperm, hsorted⟩, hout⟩ :=
      CheckFeedJsRun_elim _ _ _ _ _ rfl (by decide) hrun
    have hits : its = sortJsByKey [jsItemT3, jsItemT1, jsItemT2] :=
      hsorted (by decide)
    subst hits
    rw [hout]
    decide

/-- Witness for the amended claim C6 at concrete inputs: a concrete
all-valid-dates cycle whose admissible outcome has its delivery attempts
ordered oldest-first, namely the [T3, T1, T2] run delivering
[T1, T2, T3]. -/
theorem checkFeed_delivery_order_valid_dates_witness :
    List.Pairwise timeLEJs
      (CheckOutcomeJs.mk ["a", "b", "c"] [jsItemT1, jsItemT2, jsItemT3]
        true true).attempts ∧
    (CheckOutcomeJs.mk ["a", "b", "c"] [jsItemT1, jsItemT2, jsItemT3]
        true true).attempts = [jsItemT1, jsItemT2, jsItemT3] := by
  have hrun : CheckFeedJsRun (some ⟨"f", "u", true, [⟨"s1", "c1", none, none, none⟩]⟩)
      (some [jsItemT3, jsItemT1, jsItemT2])
      ⟨fun _ => none, fun _ => none, fun _ _ _ => .ok⟩ []
      (CheckOutcomeJs.mk ["a", "b", "c"] [jsItemT1, jsItemT2, jsItemT3] true true) := by
    have h := CheckFeedJsRun_intro ⟨"f", "u", true, [⟨"s1", "c1", none, none, none⟩]⟩
      [jsItemT3, jsItemT1, jsItemT2] (sortJsByKey [jsItemT3, jsItemT1, jsItemT2])
      ⟨fun _ => none, fun _ => none, fun _ _ _ => .ok⟩ []
      rfl (by decide) ⟨by decide, fun _ => rfl⟩
    exact h
  constructor
  · exact checkFeed_delivery_order_valid_dates.1
      (some ⟨"f", "u", true, [⟨"s1", "c1", none, none, none⟩]⟩)
      (some [jsItemT3, jsItemT1, jsItemT2])
      ⟨fun _ => none, fun _ => none, fun _ _ _ => .ok⟩ []
      (CheckOutcomeJs.mk ["a", "b", "c"] [jsItemT1, jsItemT2, jsItemT3] true true)
      (by
        intro items h it hit
        rw [Option.some_inj] at h
        subst h
        revert it hit
        decide)
      hrun
  · exact checkFeed_delivery_order_valid_dates.2
      (CheckOutcomeJs.mk ["a", "b", "c"] [jsItemT1, jsItemT2, jsItemT3] true true)
      hrun

/-- Counterexample to claim C6 as stated: an item whose truthy date string
does not parse is an Invalid Date whose `getTime()` is NaN (produced by
the parser normalization — second conjunct); the delivery comparator then
returns NaN, the ECMA-262 sort contract admits the unsorted order, and the
cycle can deliver the article published at T3 before the one published at
T1, violating the claimed non-decreasing order. -/
theorem checkFeed_delivery_order_counterexample :
    (¬ ∀ (feedRow : Option Feed) (fetchResult : Option (List JsItem))
        (env : DeliverEnv) (ledger : List String) (out : CheckOutcomeJs),
        CheckFeedJsRun feedRow fetchResult env ledger out →
        List.Pairwise timeLEJs out.attempts) ∧
    (normalizeItemJs (fun _ => none)
        ⟨"b", "t2", "lb", "", "", "three days ago", "", "", none⟩).pubDate =
      some JsNum.nan := by
  constructor
  · intro hall
    have hrun := CheckFeedJsRun_intro ⟨"f", "u", true, [⟨"s1", "c1", none, none, none⟩]⟩
      [jsItemT3, jsItemInvalid, jsItemT1] [jsItemT3, jsItemInvalid, jsItemT1]
      ⟨fun _ => none, fun _ => none, fun _ _ _ => .ok⟩ []
      rfl (by decide)
      ⟨List.Perm.refl _, fun h =>
        absurd rfl (h jsItemInvalid (by decide) jsItemInvalid (by decide))⟩
    have hp := hall _ _ _ _ _ hrun
    have h31 : timeLEJs jsItemT3 jsItemT1 :=
      (List.pairwise_cons.mp hp).1 jsItemT1 (by decide)
    have h31i : (3 : Int) ≤ 1 := h31
    omega
  · rfl

/-- Claim C7, amended: the parser maps every raw item totally — no single
malformed item fails the feed, and no item is dropped (the output has one
normalized item per raw item); an item with neither guid nor link gets the
empty-string id and is *retained* in the parse result; such items are then
skipped by `checkFeed`, which never attempts delivery for an empty id and
never records an empty id in the ledger. -/
theorem parseFeed_total_and_empty_guid_retained :
    (∀ (dateParse : String → Int) (raws : List RawItem),
      (parseFeedItems dateParse raws).length = raws.length) ∧
    (∀ (feedRow : Option Feed) (fetchResult : Option (List ParsedItem))
      (env : DeliverEnv) (ledger : List String),
      (∀ it ∈ (checkFeed feedRow fetchResult env ledger).attempts, it.guid ≠ "") ∧
      (∀ g ∈ (checkFeed feedRow fetchResult env ledger).ledger,
        g ∈ ledger ∨ g ≠ "")) := by
  constructor
  · intro dateParse raws
    simp [parseFeedItems]
  · intro feedRow fetchResult env ledger
    cases feedRow with
    | none =>
      exact ⟨by simp [checkFeed], fun g hg => Or.inl (by simpa [checkFeed] using hg)⟩
    | some feed =>
      cases hb : feed.active with
      | false =>
        exact ⟨by simp [checkFeed, hb],
          fun g hg => Or.inl (by simpa [checkFeed, hb] using hg)⟩
      | true =>
        by_cases hs : feed.subscriptions = []
        · exact ⟨by simp [checkFeed, hb, hs],
            fun g hg => Or.inl (by simpa [checkFeed, hb, hs] using hg)⟩
        · cases fetchResult with
          | none =>
            exact ⟨by simp [checkFeed, hb, hs],
              fun g hg => Or.inl (by simpa [checkFeed, hb, hs] using hg)⟩
          | some items =>
            rw [checkFeed_run_eq feed items env ledger hb hs]
            constructor
            · intro it hit
              exact checkItems_attempts_guid_ne feed env (sortByPubDate items) ledger it hit
            · intro g hg
              rcases (checkItems_ledger_mem feed env (sortByPubDate items) ledger g).mp hg
                with h | ⟨hne, _, _⟩
              · exact Or.inl h
              · exact Or.inr hne

/-- Witness for the amended claim C7 at concrete inputs: a one-item raw
list normalizes to a one-item parse result, and in a concrete cycle every
attempted item has a non-empty id. -/
theorem parseFeed_total_and_empty_guid_retained_witness :
    (parseFeedItems (fun _ => 0) [⟨"", "T", "", "", "", "", "", "", none⟩]).length = 1 ∧
    (⟨"a", "t", "l", none, none, none, none⟩ : ParsedItem).guid ≠ "" :=
  ⟨parseFeed_total_and_empty_guid_retained.1 (fun _ => 0) _,
    (parseFeed_total_and_empty_guid_retained.2
      (some ⟨"f", "u", true, [⟨"s1", "c1", none, none, none⟩]⟩)
      (some [⟨"a", "t", "l", none, none, none, none⟩])
      ⟨fun _ => none, fun _ => none, fun _ _ _ => .ok⟩ []).1
      ⟨"a", "t", "l", none, none, none, none⟩ (by decide)⟩

/-- Counterexample to claim C7 as stated: a raw item with neither guid nor
link is *not* dropped from the parse result — it is retained with an
empty-string id, so not every item in the returned list has a usable
(non-empty) id. -/
theorem parseFeed_empty_guid_counterexample :
    (parseFeedItems (fun _ => 0) [⟨"", "T", "", "", "", "", "", "", none⟩]).length = 1 ∧
    ((parseFeedItems (fun _ => 0) [⟨"", "T", "", "", "", "", "", "", none⟩]).all
      fun p => p.guid != "") = false :=
  ⟨rfl, rfl⟩

/-- Claim C1: in a cycle over an active feed with active subscriptions, a
guid enters the ledger exactly when it is a non-empty guid of a fetched
article, was not already recorded, and at least one subscription's delivery
succeeded; and for an article all of whose subscription deliveries fail,
the ledger is unchanged for that guid and the immediately following cycle
attempts it again (it is still unseen). -/
theorem checkFeed_commit_requires_success (feed : Feed) (items : List ParsedItem)
    (env : DeliverEnv) (ledger : List String)
    (hact : feed.active = true) (hsubs : ¬ feed.subscriptions = []) :
    (∀ g, g ∈ (checkFeed (some feed) (some items) env ledger).ledger ↔
      g ∈ ledger ∨ (g ≠ "" ∧ (∃ it ∈ items, it.guid = g) ∧
        ∃ sub ∈ feed.subscriptions, deliverToSub env sub g = true)) ∧
    (∀ g, (∀ sub ∈ feed.subscriptions, deliverToSub env sub g = false) →
      ((g ∈ (checkFeed (some feed) (some items) env ledger).ledger ↔ g ∈ ledger) ∧
        (g ≠ "" → g ∉ ledger → (∃ it ∈ items, it.guid = g) →
          ∃ it ∈ (checkFeed (some feed) (some items) env
            (checkFeed (some feed) (some items) env ledger).ledger).attempts,
            it.guid = g))) := by
  constructor
  · intro g
    rw [checkFeed_run_eq feed items env ledger hact hsubs]
    rw [checkItems_ledger_mem feed env (sortByPubDate items) ledger g]
    constructor
    · rintro (h | ⟨hne, ⟨it, hit, hg⟩, hany⟩)
      · exact Or.inl h
      · exact Or.inr ⟨hne, ⟨it, (mem_sortByPubDate items it).mp hit, hg⟩,
          List.any_eq_true.mp hany⟩
    · rintro (h | ⟨hne, ⟨it, hit, hg⟩, hany⟩)
      · exact Or.inl h
      · exact Or.inr ⟨hne, ⟨it, (mem_sortByPubDate items it).mpr hit, hg⟩,
          List.any_eq_true.mpr hany⟩
  · intro g hfail
    have hany : (feed.subscriptions.any fun sub => deliverToSub env sub g) = false := by
      rw [List.any_eq_false]
      intro sub hsub
      rw [hfail sub hsub]
      simp
    have hmem : g ∈ (checkFeed (some feed) (some items) env ledger).ledger ↔
        g ∈ ledger := by
      rw [checkFeed_run_eq feed items env ledger hact hsubs,
        checkItems_ledger_mem feed env (sortByPubDate items) ledger g, hany]
      simp
    refine ⟨hmem, fun hne hnl hex => ?_⟩
    rw [checkFeed_run_eq feed items env
      ((checkFeed (some feed) (some items) env ledger).ledger) hact hsubs]
    rw [checkItems_attempts_mem feed env (sortByPubDate items) _ g]
    rcases hex with ⟨it, hit, hg⟩
    exact ⟨hne, fun hmem2 => hnl (hmem.mp hmem2),
      it, (mem_sortByPubDate items it).mpr hit, hg⟩

/-- Witness for claim C1 at a concrete feed whose only subscription fails
every send: the ledger stays empty and the next cycle attempts the same
article again. -/
theorem checkFeed_commit_requires_success_witness :
    (("a" ∈ (checkFeed (some ⟨"f", "u", true, [⟨"s1", "c1", none, none, none⟩]⟩)
      (some [⟨"a", "t", "l", none, none, none, none⟩])
      ⟨fun _ => none, fun _ => none, fun _ _ _ => .errOther⟩ []).ledger) ↔
      "a" ∈ ([] : List String)) ∧
    (∃ it ∈ (checkFeed (some ⟨"f", "u", true, [⟨"s1", "c1", none, none, none⟩]⟩)
      (some [⟨"a", "t", "l", none, none, none, none⟩])
      ⟨fun _ => none, fun _ => none, fun _ _ _ => .errOther⟩
      (checkFeed (some ⟨"f", "u", true, [⟨"s1", "c1", none, none, none⟩]⟩)
        (some [⟨"a", "t", "l", none, none, none, none⟩])
        ⟨fun _ => none, fun _ => none, fun _ _ _ => .errOther⟩ []).ledger).attempts,
      it.guid = "a") := by
  have h := checkFeed_commit_requires_success
    ⟨"f", "u", true, [⟨"s1", "c1", none, none, none⟩]⟩
    [⟨"a", "t", "l", none, none, none, none⟩]
    ⟨fun _ => none, fun _ => none, fun _ _ _ => .errOther⟩ [] rfl (by simp)
  have h2 := h.2 "a" (by decide)
  exact ⟨h2.1, h2.2 (by decide) (by decide)
    ⟨⟨"a", "t", "l", none, none, none, none⟩, by simp, rfl⟩⟩

/-! ### Scheduler (claim C2) -/

theorem schedJobs_nodup : ∀ st, SchedReachable st → st.jobs.Nodup := by
  intro st h
  induction h with
  | refl => exact List.nodup_nil
  | tail h1 h2 ih =>
    cases h2 with
    | schedule fid =>
      rw [List.nodup_cons]
      exact ⟨fun hmem => by simpa using (List.mem_filter.mp hmem).2, ih.filter _⟩
    | unschedule fid => exact ih.filter _
    | stopAll => exact List.nodup_nil
    | fire fid hf => exact ih
    | finish fid tag hf => exact ih

theorem schedOverlapReachable :
    SchedReachable ⟨["feed1"], [("feed1", 0), ("feed1", 1)], 2⟩ := by
  have s1 : SchedStep schedInit ⟨["feed1"], [], 0⟩ := by
    have h := SchedStep.schedule schedInit "feed1"
    simpa using h
  have s2 : SchedStep (⟨["feed1"], [], 0⟩ : SchedState) ⟨["feed1"], [("feed1", 0)], 1⟩ := by
    have h := SchedStep.fire ⟨["feed1"], [], 0⟩ "feed1" (by simp)
    simpa using h
  have s3 : SchedStep (⟨["feed1"], [("feed1", 0)], 1⟩ : SchedState)
      ⟨["feed1"], [("feed1", 0), ("feed1", 1)], 2⟩ := by
    have h := SchedStep.fire ⟨["feed1"], [("feed1", 0)], 1⟩ "feed1" (by simp)
    simpa using h
  exact Relation.ReflTransGen.tail
    (Relation.ReflTransGen.tail (Relation.ReflTransGen.single s1) s2) s3

/-- Claim C2, amended: the scheduler registry holds at most one cron task
per feed in every reachable state (`scheduleFeed` replaces any existing
task, `unscheduleFeed` removes it), but a registered task may fire again
while a previous invocation of the same feed's `checkFeed` is still in
flight — the callback is not awaited by the cron library and contains no
completion guard — so a state with two overlapping in-flight checks of one
feed is reachable. -/
theorem scheduler_one_task_but_overlapping_runs :
    (∀ st, SchedReachable st → st.jobs.Nodup) ∧
    (∃ st, SchedReachable st ∧ 2 ≤ runningCount st "feed1") :=
  ⟨schedJobs_nodup,
    ⟨⟨["feed1"], [("feed1", 0), ("feed1", 1)], 2⟩, schedOverlapReachable, by decide⟩⟩

/-- Witness for the amended claim C2: the registry invariant evaluated at a
concrete reachable state. -/
theorem scheduler_one_task_but_overlapping_runs_witness :
    (⟨["feed1"], [("feed1", 0), ("feed1", 1)], 2⟩ : SchedState).jobs.Nodup :=
  scheduler_one_task_but_overlapping_runs.1 _ schedOverlapReachable

/-- Counterexample to claim C2 as stated: after `scheduleFeed` registers a
task for one feed, two cron ticks may fire before either `checkFeed`
invocation finishes — the state with two in-flight checks of the same feed
is reachable, so firings of one feed's job *can* overlap in time. -/
theorem scheduler_overlap_counterexample :
    SchedReachable ⟨["feed1"], [("feed1", 0), ("feed1", 1)], 2⟩ ∧
    runningCount ⟨["feed1"], [("feed1", 0), ("feed1", 1)], 2⟩ "feed1" = 2 :=
  ⟨schedOverlapReachable, rfl⟩

/-! ### Topic router lemmas (claim C8) -/

theorem find?_eq_some_of_unique {α : Type} (p : α → Bool) (l : List α) (x : α)
    (hx : x ∈ l) (hpx : p x = true) (huniq : ∀ y ∈ l, p y = true → y = x) :
    l.find? p = some x := by
  induction l with
  | nil => cases hx
  | cons a as ih =>
    by_cases hpa : p a = true
    · rw [List.find?_cons_of_pos _ hpa, huniq a (List.mem_cons_self _ _) hpa]
    · rw [List.find?_cons_of_neg _ hpa]
      rcases List.mem_cons.mp hx with rfl | hx2
      · exact absurd hpx hpa
      · exact ih hx2 fun y hy => huniq y (List.mem_cons_of_mem _ hy)

theorem eq_of_mem_id (db : TopicDb) (hnd : (db.map fun s => s.id).Nodup)
    {x y : Subscription} (hx : x ∈ db) (hy : y ∈ db) (hxy : x.id = y.id) : x = y :=
  List.inj_on_of_nodup_map hnd hx hy hxy

theorem findById_eq_of_mem (db : TopicDb) (hnd : (db.map fun s => s.id).Nodup)
    (s : Subscription) (hs : s ∈ db) :
    db.find? (fun t => t.id == s.id) = some s :=
  find?_eq_some_of_unique _ _ _ hs (by simp)
    (fun y hy hpy => eq_of_mem_id db hnd hy hs (by simpa using hpy))

theorem findById_map (X : TopicDb) (f : Subscription → Subscription)
    (hid : ∀ s, (f s).id = s.id) (j : String) :
    (X.map f).find? (fun s => s.id == j) = (X.find? (fun s => s.id == j)).map f := by
  have hp : ((fun s : Subscription => s.id == j) ∘ f) =
      (fun s : Subscription => s.id == j) := by
    funext s
    simp [Function.comp, hid]
  rw [List.find?_map, hp]

theorem dbThreadOf_map (db : TopicDb) (f : Subscription → Subscription)
    (hid : ∀ s, (f s).id = s.id) (i : String) :
    dbThreadOf (db.map f) i =
      (match db.find? (fun s => s.id == i) with
        | some s => (f s).topicThreadId
        | none => none) := by
  unfold dbThreadOf
  rw [List.find?_map]
  have hp : ((fun s : Subscription => s.id == i) ∘ f) =
      (fun s : Subscription => s.id == i) := by
    funext s
    simp [Function.comp, hid]
  rw [hp]
  cases db.find? (fun s : Subscription => s.id == i) <;> rfl

theorem dbThreadOf_map_preserve (db : TopicDb) (f : Subscription → Subscription)
    (hid : ∀ s, (f s).id = s.id) (hth : ∀ s, (f s).topicThreadId = s.topicThreadId)
    (i : String) : dbThreadOf (db.map f) i = dbThreadOf db i := by
  rw [dbThreadOf_map db f hid]
  unfold dbThreadOf
  cases db.find? (fun s : Subscription => s.id == i) with
  | none => rfl
  | some s => exact hth s

theorem dbThreadOf_map_of_mem (db : TopicDb) (f : Subscription → Subscription)
    (hid : ∀ s, (f s).id = s.id) (hnd : (db.map fun s => s.id).Nodup)
    (s : Subscription) (hs : s ∈ db) :
    dbThreadOf (db.map f) s.id = (f s).topicThreadId := by
  rw [dbThreadOf_map db f hid, findById_eq_of_mem db hnd s hs]

theorem ensureTopic_fast (isF : String → Bool) (cr : Option Int) (db : TopicDb)
    (input : EnsureTopicInput) (t : Int)
    (hkey : ¬ derivedTopicKey input = "") (hforce : input.forceRecreate = false)
    (hthread : input.topicThreadId = some t) :
    ensureTopicForSubscription isF cr db input =
      (some t, dbSetNameKey db input.subscriptionId (derivedTopicName input)
        (derivedTopicKey input), false) := by
  unfold ensureTopicForSubscription
  dsimp only
  rw [if_neg hkey,
    if_pos (show input.forceRecreate = false ∧ input.topicThreadId.isSome by
      rw [hforce, hthread]; exact ⟨rfl, rfl⟩),
    hthread]

theorem ensureTopic_reuse (isF : String → Bool) (cr : Option Int) (db : TopicDb)
    (input : EnsureTopicInput) (s0 : Subscription) (t : Int)
    (hkey : ¬ derivedTopicKey input = "") (hforce : input.forceRecreate = false)
    (hthread : input.topicThreadId = none)
    (hfind : findAssigned (dbSetNameKey db input.subscriptionId
        (derivedTopicName input) (derivedTopicKey input))
      input.chatId (derivedTopicKey input) = some s0)
    (hs0 : s0.topicThreadId = some t) :
    ensureTopicForSubscription isF cr db input =
      (some t,
        dbSetAll (dbSetNameKey db input.subscriptionId (derivedTopicName input)
          (derivedTopicKey input)) input.subscriptionId (derivedTopicName input)
          (derivedTopicKey input) t,
        false) := by
  unfold ensureTopicForSubscription
  dsimp only
  rw [if_neg hkey, if_neg (by rw [hthread]; simp), if_neg (by rw [hforce]; simp),
    hfind]
  dsimp only
  rw [hs0]

theorem ensureTopic_create (isF : String → Bool) (t : Int) (db : TopicDb)
    (input : EnsureTopicInput)
    (hkey : ¬ derivedTopicKey input = "") (hforce : input.forceRecreate = false)
    (hthread : input.topicThreadId = none)
    (hfind : findAssigned (dbSetNameKey db input.subscriptionId
        (derivedTopicName input) (derivedTopicKey input))
      input.chatId (derivedTopicKey input) = none)
    (hforum : isF input.chatId = true) :
    ensureTopicForSubscription isF (some t) db input =
      (some t,
        dbSetAll (dbAssignThreads (dbSetNameKey db input.subscriptionId
            (derivedTopicName input) (derivedTopicKey input))
          input.chatId (derivedTopicKey input) (derivedTopicName input) t)
          input.subscriptionId (derivedTopicName input) (derivedTopicKey input) t,
        true) := by
  unfold ensureTopicForSubscription
  dsimp only
  rw [if_neg hkey, if_neg (by rw [hthread]; simp), if_neg (by rw [hforce]; simp),
    hfind]
  dsimp only
  rw [if_neg (by rw [hforum]; simp)]

/-- The two-subscription sharing scenario of claim C8: two fresh
subscriptions of one destination whose feed names normalize to the same
key; the first delivery creates the topic, the second adopts the same
thread without creating anything, and both rows end with the same
`topicThreadId`. -/
theorem topic_sharing_scenario (isF : String → Bool) (cr2 : Option Int)
    (db : TopicDb) (s1 s2 : Subscription) (f1 f2 : String) (t1 : Int)
    (hnd : (db.map fun s => s.id).Nodup)
    (hs1 : s1 ∈ db) (hs2 : s2 ∈ db) (hid12 : s1.id ≠ s2.id)
    (hcc : s2.chatId = s1.chatId)
    (hn1 : s1.topicName = none) (hk1 : s1.topicNameKey = none)
    (ht1 : s1.topicThreadId = none)
    (hn2 : s2.topicName = none) (hk2 : s2.topicNameKey = none)
    (ht2 : s2.topicThreadId = none)
    (hkeq : normalizeTopicName (buildTopicNameFromFeed f2) =
      normalizeTopicName (buildTopicNameFromFeed f1))
    (hkne : ¬ normalizeTopicName (buildTopicNameFromFeed f1) = "")
    (hother : ∀ y ∈ db, y.id ≠ s1.id → y.id ≠ s2.id →
      ¬(y.chatId = s1.chatId ∧
        y.topicNameKey = some (normalizeTopicName (buildTopicNameFromFeed f1))))
    (hforum : isF s1.chatId = true) :
    (ensureTopicForSubscription isF (some t1) db (inputOfSub s1 f1)).1 = some t1 ∧
    (ensureTopicForSubscription isF (some t1) db (inputOfSub s1 f1)).2.2 = true ∧
    (ensureTopicForSubscription isF cr2
      (ensureTopicForSubscription isF (some t1) db (inputOfSub s1 f1)).2.1
      (inputOfSub s2 f2)).1 = some t1 ∧
    (ensureTopicForSubscription isF cr2
      (ensureTopicForSubscription isF (some t1) db (inputOfSub s1 f1)).2.1
      (inputOfSub s2 f2)).2.2 = false ∧
    dbThreadOf (ensureTopicForSubscription isF cr2
      (ensureTopicForSubscription isF (some t1) db (inputOfSub s1 f1)).2.1
      (inputOfSub s2 f2)).2.1 s1.id = some t1 ∧
    dbThreadOf (ensureTopicForSubscription isF cr2
      (ensureTopicForSubscription isF (some t1) db (inputOfSub s1 f1)).2.1
      (inputOfSub s2 f2)).2.1 s2.id = some t1 := by
  have hdn1 : derivedTopicName (inputOfSub s1 f1) = buildTopicNameFromFeed f1 := by
    simp [derivedTopicName, inputOfSub, hn1]
  have hdk1 : derivedTopicKey (inputOfSub s1 f1) =
      normalizeTopicName (buildTopicNameFromFeed f1) := by
    simp [derivedTopicKey, derivedTopicName, inputOfSub, hn1, hk1]
  have hdn2 : derivedTopicName (inputOfSub s2 f2) = buildTopicNameFromFeed f2 := by
    simp [derivedTopicName, inputOfSub, hn2]
  have hdk2 : derivedTopicKey (inputOfSub s2 f2) =
      normalizeTopicName (buildTopicNameFromFeed f1) := by
    simp [derivedTopicKey, derivedTopicName, inputOfSub, hn2, hk2, hkeq]
  -- run 1: no row of this destination carries the key yet, so the create
  -- path runs and assigns `t1`
  have hfind1 : findAssigned
      (dbSetNameKey db (inputOfSub s1 f1).subscriptionId
        (derivedTopicName (inputOfSub s1 f1)) (derivedTopicKey (inputOfSub s1 f1)))
      (inputOfSub s1 f1).chatId (derivedTopicKey (inputOfSub s1 f1)) = none := by
    rw [hdn1, hdk1]
    unfold findAssigned dbSetNameKey
    simp only [inputOfSub]
    rw [List.find?_eq_none]
    intro x hx
    rcases List.mem_map.mp hx with ⟨y, hy, rfl⟩
    by_cases hy1 : y.id = s1.id
    · have hys : y = s1 := eq_of_mem_id db hnd hy hs1 hy1
      subst hys
      simp [ht1]
    · by_cases hy2 : y.id = s2.id
      · have hys : y = s2 := eq_of_mem_id db hnd hy hs2 hy2
        subst hys
        simp [hy1, hk2]
      · intro hpred
        simp [hy1] at hpred
        exact hother y hy hy1 hy2 ⟨hpred.1.1, hpred.1.2⟩
  have r1eq := ensureTopic_create isF t1 db (inputOfSub s1 f1)
    (by rw [hdk1]; exact hkne) rfl ht1 hfind1 hforum
  rw [hdn1, hdk1] at r1eq
  simp only [inputOfSub] at r1eq
  simp only [inputOfSub]
  refine ⟨by rw [r1eq], by rw [r1eq], ?_⟩
  rw [r1eq]
  dsimp only
  -- the table after run 1 and the row s1 now carries
  set DB4 := dbSetAll (dbAssignThreads
      (dbSetNameKey db s1.id (buildTopicNameFromFeed f1)
        (normalizeTopicName (buildTopicNameFromFeed f1)))
      s1.chatId (normalizeTopicName (buildTopicNameFromFeed f1))
      (buildTopicNameFromFeed f1) t1)
    s1.id (buildTopicNameFromFeed f1)
    (normalizeTopicName (buildTopicNameFromFeed f1)) t1 with hDB4
  set s1A : Subscription := ⟨s1.id, s1.chatId,
    some (buildTopicNameFromFeed f1),
    some (normalizeTopicName (buildTopicNameFromFeed f1)), some t1⟩ with hs1A
  have hm1 : s1A ∈ DB4 := by
    rw [hDB4]
    simp only [dbSetAll, dbAssignThreads, dbSetNameKey]
    refine List.mem_map.mpr ⟨_, List.mem_map.mpr ⟨_, List.mem_map.mpr
      ⟨s1, hs1, rfl⟩, rfl⟩, ?_⟩
    simp [ht1, hs1A]
  -- run 2: the lookup over the updated table finds exactly the row of s1
  have hfind2 : findAssigned
      (dbSetNameKey DB4 s2.id (buildTopicNameFromFeed f2)
        (normalizeTopicName (buildTopicNameFromFeed f1)))
      s2.chatId (normalizeTopicName (buildTopicNameFromFeed f1)) = some s1A := by
    unfold findAssigned
    apply find?_eq_some_of_unique
    · simp only [dbSetNameKey]
      refine List.mem_map.mpr ⟨s1A, hm1, ?_⟩
      rw [hs1A]
      simp [hid12]
    · rw [hs1A]
      simp [hcc]
    · intro y hy hpred
      simp only [dbSetNameKey] at hy
      rcases List.mem_map.mp hy with ⟨y4, hy4, rfl⟩
      rw [hDB4] at hy4
      simp only [dbSetAll, dbAssignThreads, dbSetNameKey] at hy4
      rcases List.mem_map.mp hy4 with ⟨y3, hy3, rfl⟩
      rcases List.mem_map.mp hy3 with ⟨y2, hy2, rfl⟩
      rcases List.mem_map.mp hy2 with ⟨z, hz, rfl⟩
      by_cases hz1 : z.id = s1.id
      · have hzz : z = s1 := eq_of_mem_id db hnd hz hs1 hz1
        subst hzz
        rw [hs1A]
        simp [ht1, hid12]
      · by_cases hz2 : z.id = s2.id
        · have hzz : z = s2 := eq_of_mem_id db hnd hz hs2 hz2
          subst hzz
          simp [hz1, hk2, ht2] at hpred
        · have hA : ¬((z.chatId = s1.chatId ∧
              z.topicNameKey = some (normalizeTopicName (buildTopicNameFromFeed f1))) ∧
              z.topicThreadId = none) := fun h => hother z hz hz1 hz2 h.1
          simp [hz1, hz2, hA] at hpred
          exact absurd ⟨hpred.1.1.trans hcc, hpred.1.2⟩ (hother z hz hz1 hz2)
  have r2eq := ensureTopic_reuse isF cr2 DB4 (inputOfSub s2 f2) s1A t1
    (by rw [hdk2]; exact hkne) rfl ht2
    (by rw [hdn2, hdk2]; exact hfind2) (by rw [hs1A])
  rw [hdn2, hdk2] at r2eq
  simp only [inputOfSub] at r2eq
  rw [r2eq]
  dsimp only
  refine ⟨rfl, rfl, ?_, ?_⟩
  · rw [hDB4]
    unfold dbThreadOf
    simp only [dbSetAll, dbAssignThreads, dbSetNameKey]
    rw [findById_map _ _ (fun s => by split <;> rfl) s1.id,
      findById_map _ _ (fun s => by split <;> rfl) s1.id,
      findById_map _ _ (fun s => by split <;> rfl) s1.id,
      findById_map _ _ (fun s => by split <;> rfl) s1.id,
      findById_map _ _ (fun s => by split <;> rfl) s1.id,
      findById_eq_of_mem db hnd s1 hs1]
    simp [ht1, hid12, Ne.symm hid12, hk2, ht2]
  · rw [hDB4]
    unfold dbThreadOf
    simp only [dbSetAll, dbAssignThreads, dbSetNameKey]
    rw [findById_map _ _ (fun s => by split <;> rfl) s2.id,
      findById_map _ _ (fun s => by split <;> rfl) s2.id,
      findById_map _ _ (fun s => by split <;> rfl) s2.id,
      findById_map _ _ (fun s => by split <;> rfl) s2.id,
      findById_map _ _ (fun s => by split <;> rfl) s2.id,
      findById_eq_of_mem db hnd s2 hs2]
    simp [ht1, ht2, hk2, hcc, Ne.symm hid12]

/-- Claim C8: for every destination, subscriptions whose feed names
normalize to one topic key share a single `topicThreadId`: a non-forced
`ensureTopicForSubscription` call with an already-assigned thread returns
it unchanged, touching no thread assignment and creating nothing; a call
that finds any existing subscription with the same `(destinationId, key)`
and an assigned thread adopts that thread instead of creating a duplicate
topic; and in the two-fresh-subscriptions scenario the first delivery
creates the topic once and the second reuses it, leaving both rows with
the same thread id. -/
theorem ensureTopic_sharing :
    (∀ (isF : String → Bool) (cr : Option Int) (db : TopicDb)
      (input : EnsureTopicInput) (t : Int),
      ¬ derivedTopicKey input = "" → input.forceRecreate = false →
      input.topicThreadId = some t →
      (ensureTopicForSubscription isF cr db input).1 = some t ∧
      (ensureTopicForSubscription isF cr db input).2.2 = false ∧
      (∀ i, dbThreadOf (ensureTopicForSubscription isF cr db input).2.1 i =
        dbThreadOf db i)) ∧
    (∀ (isF : String → Bool) (cr : Option Int) (db : TopicDb)
      (input : EnsureTopicInput) (s0 : Subscription) (t : Int),
      ¬ derivedTopicKey input = "" → input.forceRecreate = false →
      input.topicThreadId = none →
      findAssigned (dbSetNameKey db input.subscriptionId (derivedTopicName input)
        (derivedTopicKey input)) input.chatId (derivedTopicKey input) = some s0 →
      s0.topicThreadId = some t →
      (ensureTopicForSubscription isF cr db input).1 = some t ∧
      (ensureTopicForSubscription isF cr db input).2.2 = false) ∧
    (∀ (isF : String → Bool) (cr2 : Option Int) (db : TopicDb)
      (s1 s2 : Subscription) (f1 f2 : String) (t1 : Int),
      (db.map fun s => s.id).Nodup → s1 ∈ db → s2 ∈ db → s1.id ≠ s2.id →
      s2.chatId = s1.chatId →
      s1.topicName = none → s1.topicNameKey = none → s1.topicThreadId = none →
      s2.topicName = none → s2.topicNameKey = none → s2.topicThreadId = none →
      normalizeTopicName (buildTopicNameFromFeed f2) =
        normalizeTopicName (buildTopicNameFromFeed f1) →
      ¬ normalizeTopicName (buildTopicNameFromFeed f1) = "" →
      (∀ y ∈ db, y.id ≠ s1.id → y.id ≠ s2.id →
        ¬(y.chatId = s1.chatId ∧
          y.topicNameKey = some (normalizeTopicName (buildTopicNameFromFeed f1)))) →
      isF s1.chatId = true →
      (ensureTopicForSubscription isF (some t1) db (inputOfSub s1 f1)).1 = some t1 ∧
      (ensureTopicForSubscription isF (some t1) db (inputOfSub s1 f1)).2.2 = true ∧
      (ensureTopicForSubscription isF cr2
        (ensureTopicForSubscription isF (some t1) db (inputOfSub s1 f1)).2.1
        (inputOfSub s2 f2)).1 = some t1 ∧
      (ensureTopicForSubscription isF cr2
        (ensureTopicForSubscription isF (some t1) db (inputOfSub s1 f1)).2.1
        (inputOfSub s2 f2)).2.2 = false ∧
      dbThreadOf (ensureTopicForSubscription isF cr2
        (ensureTopicForSubscription isF (some t1) db (inputOfSub s1 f1)).2.1
        (inputOfSub s2 f2)).2.1 s1.id = some t1 ∧
      dbThreadOf (ensureTopicForSubscription isF cr2
        (ensureTopicForSubscription isF (some t1) db (inputOfSub s1 f1)).2.1
        (inputOfSub s2 f2)).2.1 s2.id = some t1) := by
  refine ⟨?_, ?_, ?_⟩
  · intro isF cr db input t hkey hforce hthread
    rw [ensureTopic_fast isF cr db input t hkey hforce hthread]
    refine ⟨rfl, rfl, fun i => ?_⟩
    unfold dbSetNameKey
    exact dbThreadOf_map_preserve db _ (fun s => by split <;> rfl)
      (fun s => by split <;> rfl) i
  · intro isF cr db input s0 t hkey hforce hthread hfind hs0
    rw [ensureTopic_reuse isF cr db input s0 t hkey hforce hthread hfind hs0]
    exact ⟨rfl, rfl⟩
  · intro isF cr2 db s1 s2 f1 f2 t1 hnd hs1 hs2 hid12 hcc hn1 hk1 ht1 hn2 hk2 ht2
      hkeq hkne hother hforum
    exact topic_sharing_scenario isF cr2 db s1 s2 f1 f2 t1 hnd hs1 hs2 hid12 hcc
      hn1 hk1 ht1 hn2 hk2 ht2 hkeq hkne hother hforum

set_option maxRecDepth 16384 in
/-- Witness for claim C8 at concrete tables: the fast path returns the
assigned thread 5; the lookup path adopts the existing thread 9; and in the
fresh two-subscription scenario with feed names `"My Feed"` and
`" my  FEED "` (same normalized key) both rows end up with the created
thread 7. -/
theorem ensureTopic_sharing_witness :
    (ensureTopicForSubscription (fun _ => true) none
      [⟨"s", "c", some "N", some "n", some 5⟩]
      ⟨"s", "c", "F", some "N", some "n", some 5, false⟩).1 = some 5 ∧
    (ensureTopicForSubscription (fun _ => true) none
      [⟨"sA", "c", some "N", some "n", some 9⟩]
      ⟨"sB", "c", "N", none, none, none, false⟩).1 = some 9 ∧
    dbThreadOf (ensureTopicForSubscription (fun _ => true) none
      (ensureTopicForSubscription (fun _ => true) (some 7)
        [⟨"sub1", "chat1", none, none, none⟩, ⟨"sub2", "chat1", none, none, none⟩]
        (inputOfSub ⟨"sub1", "chat1", none, none, none⟩ "My Feed")).2.1
      (inputOfSub ⟨"sub2", "chat1", none, none, none⟩ " my  FEED ")).2.1
      "sub2" = some 7 := by
  refine ⟨?_, ?_, ?_⟩
  · exact (ensureTopic_sharing.1 (fun _ => true) none
      [⟨"s", "c", some "N", some "n", some 5⟩]
      ⟨"s", "c", "F", some "N", some "n", some 5, false⟩ 5
      (by decide) rfl rfl).1
  · exact (ensureTopic_sharing.2.1 (fun _ => true) none
      [⟨"sA", "c", some "N", some "n", some 9⟩]
      ⟨"sB", "c", "N", none, none, none, false⟩
      ⟨"sA", "c", some "N", some "n", some 9⟩ 9
      (by decide) rfl rfl (by decide) rfl).1
  · exact (ensureTopic_sharing.2.2 (fun _ => true) none
      [⟨"sub1", "chat1", none, none, none⟩, ⟨"sub2", "chat1", none, none, none⟩]
      ⟨"sub1", "chat1", none, none, none⟩ ⟨"sub2", "chat1", none, none, none⟩
      "My Feed" " my  FEED " 7
      (by decide) (by decide) (by decide) (by decide) rfl
      rfl rfl rfl rfl rfl rfl
      (by decide) (by decide) (by decide) rfl).2.2.2.2.2

end TeleRSS
